import Mathlib

/-!
Verification development for the Matomo → Looker Studio connector
(matomo-org/google-looker-studio).

Two components are embedded from the TypeScript source:
  * the formula translator (`mapMatomoFormulaToLooker` / `toLookerString`),
    which re-emits a parsed Matomo metric formula in Looker Studio syntax
    and collects the referenced temporary metrics; and
  * the batch request dispatcher (`fetchAll`), which canonicalizes and
    deduplicates API requests, classifies responses, retries with
    exponential backoff and optionally caches the aggregate result.

External collaborators (the mathjs parser, Google Apps Script services such
as `UrlFetchApp`, `CacheService`, `PropertiesService`, `Utilities`, the JSON
codec, and the clock) are modelled as oracle functions supplied in an
environment record; the repository's own logic is translated statement by
statement.
-/

/-! ## JavaScript string primitives

All string manipulation is done over `List Char` so that every definition
is structurally recursive and evaluates inside the kernel. -/

/-- ASCII lower-casing of one character: models `String.prototype.toLowerCase`
on the ASCII range (the only range the source's patterns use). -/
def lowerChar (c : Char) : Char :=
  if 'A' ≤ c ∧ c ≤ 'Z' then Char.ofNat (c.toNat + 32) else c

/-- Models `String.prototype.toLowerCase` (ASCII range). -/
def jsToLowerCase (s : String) : String :=
  (s.toList.map lowerChar).asString

/-- Whether `pat` occurs as a contiguous subsequence of `hay`. -/
def containsSeq (hay pat : List Char) : Bool :=
  hay.tails.any (fun t => pat.isPrefixOf t)

/-- Models `String.prototype.includes`. -/
def jsIncludes (hay pat : String) : Bool :=
  containsSeq hay.toList pat.toList

/-- The suffix of `hay` after each occurrence of the nonempty pattern `pat`,
in order of occurrence. -/
def suffixesAfter (pat : List Char) : List Char → List (List Char)
  | [] => []
  | c :: t =>
    (if pat.isPrefixOf (c :: t) then [(c :: t).drop pat.length] else [])
      ++ suffixesAfter pat t

/-- Characters the JavaScript regex `.` (without the `s` flag) does not match. -/
def isJsDotExcluded (c : Char) : Bool :=
  c = Char.ofNat 10 ∨ c = Char.ofNat 13 ∨ c = Char.ofNat 0x2028 ∨ c = Char.ofNat 0x2029

/-- A JavaScript `\w` word character: `[A-Za-z0-9_]`. -/
def isJsWordChar (c : Char) : Bool :=
  ('A' ≤ c ∧ c ≤ 'Z') ∨ ('a' ≤ c ∧ c ≤ 'z') ∨ ('0' ≤ c ∧ c ≤ '9') ∨ c = '_'

/-- Unanchored test for `first.*second` where `.` excludes line terminators:
some occurrence of `first` is followed, with no line terminator in between,
by an occurrence of `second`. -/
def matchesGapped (hay first second : List Char) : Bool :=
  (suffixesAfter first hay).any
    (fun suf => containsSeq (suf.takeWhile (fun c => ¬ isJsDotExcluded c)) second)

/-- Unanchored test for `first\w+second` (with `second` starting in a
non-word character, as in the source's pattern, the greedy `\w+` run must be
nonempty and be followed immediately by `second`). -/
def matchesWordRun (hay first second : List Char) : Bool :=
  (suffixesAfter first hay).any
    (fun suf =>
      let run := suf.takeWhile isJsWordChar
      ¬ run = [] ∧ second.isPrefixOf (suf.drop run.length))

/-! ## JavaScript object / array primitives -/

/-- Keyed assignment, as on a JS object (string keys) or array (numeric
indices): an existing key keeps its position and gets the new value, a new
key is appended. -/
def jsObjSet {κ α : Type} [DecidableEq κ] (o : List (κ × α)) (k : κ) (v : α) : List (κ × α) :=
  if o.any (fun p => p.1 = k) then o.map (fun p => if p.1 = k then (k, v) else p)
  else o ++ [(k, v)]

/-- Keyed read, `none` playing JS `undefined`. -/
def jsObjGet {κ α : Type} [DecidableEq κ] (o : List (κ × α)) (k : κ) : Option α :=
  (o.find? (fun p => p.1 = k)).map (fun p => p.2)

/-- The `delete` operator: removes the key, keeping the other keys in order. -/
def jsObjDelete {κ α : Type} [DecidableEq κ] (o : List (κ × α)) (k : κ) : List (κ × α) :=
  o.filter (fun p => ¬ p.1 = k)

/-- `Object.keys`, in insertion order. -/
def jsObjKeys {κ α : Type} (o : List (κ × α)) : List κ :=
  o.map (fun p => p.1)

/-- `Object.fromEntries`: repeated property assignment starting from `{}`
(for a duplicated key the LAST value wins, the FIRST position is kept). -/
def jsFromEntries {κ α : Type} [DecidableEq κ] (l : List (κ × α)) : List (κ × α) :=
  l.foldl (fun acc p => jsObjSet acc p.1 p.2) []

/-- JS `a || b` over possibly-undefined strings: the empty string is falsy. -/
def jsOrStr (a b : Option String) : Option String :=
  match a with
  | some s => if s = "" then b else some s
  | none => b

/-- JS truthiness of a possibly-undefined string. -/
def jsTruthyStr (a : Option String) : Bool :=
  match a with
  | some s => ¬ s = ""
  | none => false

/-- Renders a possibly-undefined string the way a template literal does
(`undefined` becomes the text "undefined"). -/
def jsTemplate (a : Option String) : String :=
  match a with
  | some s => s
  | none => "undefined"

/-! ## encodeURIComponent -/

/-- The characters `encodeURIComponent` leaves unescaped:
`A-Z a-z 0-9 - _ . ! ~ * ' ( )`. -/
def isUriUnescaped (c : Char) : Bool :=
  ('A' ≤ c ∧ c ≤ 'Z') ∨ ('a' ≤ c ∧ c ≤ 'z') ∨ ('0' ≤ c ∧ c ≤ '9')
    ∨ c = '-' ∨ c = '_' ∨ c = '.' ∨ c = '!' ∨ c = '~' ∨ c = '*'
    ∨ c = '\'' ∨ c = '(' ∨ c = ')'

/-- The UTF-8 bytes of one code point. -/
def utf8Bytes (n : Nat) : List Nat :=
  if n < 0x80 then [n]
  else if n < 0x800 then [0xC0 + n / 0x40, 0x80 + n % 0x40]
  else if n < 0x10000 then
    [0xE0 + n / 0x1000, 0x80 + (n / 0x40) % 0x40, 0x80 + n % 0x40]
  else
    [0xF0 + n / 0x40000, 0x80 + (n / 0x1000) % 0x40, 0x80 + (n / 0x40) % 0x40, 0x80 + n % 0x40]

/-- Uppercase hexadecimal digit. -/
def hexDigitUpper (n : Nat) : Char :=
  if n < 10 then Char.ofNat (48 + n) else Char.ofNat (55 + n)

/-- `%XX` percent-escape of one byte. -/
def percentByte (b : Nat) : List Char :=
  ['%', hexDigitUpper (b / 16), hexDigitUpper (b % 16)]

/-- Models the JS builtin `encodeURIComponent`. -/
def encodeURIComponent (s : String) : String :=
  ((s.toList.map
      (fun c =>
        if isUriUnescaped c then [c]
        else ((utf8Bytes c.toNat).map percentByte).flatten)).flatten).asString

/-- Truncation `String.prototype.substring(0, 100)`. -/
def truncate100 (s : String) : String :=
  (s.toList.take 100).asString

/-! ## The mathjs expression tree

The translator operates on the AST produced by the external `mathjs` parser
(`math.parse`). The node kinds the source dispatches on are embedded as a
mutual inductive (`NodeList` instead of `List MathNode` keeps every function
on the tree structurally recursive). The disallowed node kinds carry their
source text (`raw`), which the source only ever uses inside error messages;
`unknown` models the `default` branch of the dispatch. -/

mutual

inductive MathNode where
  | accessor (object : MathNode) (dimensions : NodeList)
  | conditional (condition trueExpr falseExpr : MathNode)
  | operatorNode (op : String) (fn : String) (args : NodeList)
  | parenthesis (content : MathNode)
  | relational (conditionals : List String) (params : NodeList)
  | constantStr (value : String)
  | constantNum (value : Int)
  | symbol (name : String)
  | functionCall (fnName : String) (args : NodeList)
  | arrayNode (raw : String)
  | assignmentNode (raw : String)
  | blockNode (raw : String)
  | rangeNode (raw : String)
  | objectNode (raw : String)
  | functionAssignmentNode (raw : String)
  | indexNode (raw : String)
  | unknown (typeName : String) (raw : String)
deriving DecidableEq, Repr

inductive NodeList where
  | nil
  | cons (head : MathNode) (tail : NodeList)
deriving DecidableEq, Repr

end

/-- The `type` string of a node, as the source's `switch (ast.type)` sees it. -/
def MathNode.nodeType : MathNode → String
  | .accessor _ _ => "AccessorNode"
  | .conditional _ _ _ => "ConditionalNode"
  | .operatorNode _ _ _ => "OperatorNode"
  | .parenthesis _ => "ParenthesisNode"
  | .relational _ _ => "RelationalNode"
  | .constantStr _ => "ConstantNode"
  | .constantNum _ => "ConstantNode"
  | .symbol _ => "SymbolNode"
  | .functionCall _ _ => "FunctionNode"
  | .arrayNode _ => "ArrayNode"
  | .assignmentNode _ => "AssignmentNode"
  | .blockNode _ => "BlockNode"
  | .rangeNode _ => "RangeNode"
  | .objectNode _ => "ObjectNode"
  | .functionAssignmentNode _ => "FunctionAssignmentNode"
  | .indexNode _ => "IndexNode"
  | .unknown typeName _ => typeName

/-- Length of a node list. -/
def NodeList.length : NodeList → Nat
  | .nil => 0
  | .cons _ t => 1 + t.length

/-- Indexing `list[i]` on a node list, `none` playing JS `undefined`. -/
def NodeList.get? : NodeList → Nat → Option MathNode
  | .nil, _ => none
  | .cons h _, 0 => some h
  | .cons _ t, n + 1 => t.get? n

mutual

/-- Models `Node.toString()` of the external mathjs library for the node
kinds above: symbols print their name, string constants print in double
quotes, function calls print `name(arg1, arg2)`; the library's
precedence-driven parenthesization of operator expressions is simplified to
plain infix joining (the source only relies on `toString` for symbols,
constants, function calls and the node text quoted inside error messages). -/
def nodeToString : MathNode → String
  | .accessor object dimensions =>
      nodeToString object ++ "[" ++ nodeListToString dimensions ++ "]"
  | .conditional c t f =>
      nodeToString c ++ " ? " ++ nodeToString t ++ " : " ++ nodeToString f
  | .operatorNode op _ args => nodeListJoin (" " ++ op ++ " ") args
  | .parenthesis content => "(" ++ nodeToString content ++ ")"
  | .relational _ params => nodeListJoin " " params
  | .constantStr v => "\"" ++ v ++ "\""
  | .constantNum v => toString v
  | .symbol name => name
  | .functionCall fnName args => fnName ++ "(" ++ nodeListToString args ++ ")"
  | .arrayNode raw => raw
  | .assignmentNode raw => raw
  | .blockNode raw => raw
  | .rangeNode raw => raw
  | .objectNode raw => raw
  | .functionAssignmentNode raw => raw
  | .indexNode raw => raw
  | .unknown _ raw => raw

/-- `dimensions.join(', ')` as mathjs renders an argument/index list. -/
def nodeListToString : NodeList → String
  | .nil => ""
  | .cons h .nil => nodeToString h
  | .cons h t => nodeToString h ++ ", " ++ nodeListToString t

/-- Join the rendered nodes with an arbitrary separator. -/
def nodeListJoin (sep : String) : NodeList → String
  | .nil => ""
  | .cons h .nil => nodeToString h
  | .cons h t => nodeToString h ++ sep ++ nodeListJoin sep t

end

/-- Decidable equality for `Except` results (used to evaluate the embedded
functions on concrete inputs). -/
instance exceptDecEq {ε α : Type} [DecidableEq ε] [DecidableEq α] : DecidableEq (Except ε α) := fun a b =>
  match a, b with
  | .ok x, .ok y =>
      if h : x = y then .isTrue (by rw [h]) else .isFalse (fun he => by cases he; exact h rfl)
  | .error x, .error y =>
      if h : x = y then .isTrue (by rw [h]) else .isFalse (fun he => by cases he; exact h rfl)
  | .ok _, .error _ => .isFalse (fun he => by cases he)
  | .error _, .ok _ => .isFalse (fun he => by cases he)

/-! ## The formula translator (source: `toLookerString`, `mapMatomoFormulaToLooker`) -/

/-- Source constant `SUPPORTED_FUNCTIONS`: the allow-list of function names
and their Looker Studio spellings. -/
def SUPPORTED_FUNCTIONS : List (String × String) :=
  [("min", "NARY_MIN"), ("max", "NARY_MAX"), ("abs", "ABS")]

/-- Source constant `OperatorNodeMap` ("required for RelationalNodeMap"). -/
def OperatorNodeMap : List (String × String) :=
  [("xor", "xor"), ("and", "and"), ("or", "or"), ("bitOr", "|"), ("bitXor", "^|"),
   ("bitAnd", "&"), ("equal", "=="), ("unequal", "!="), ("smaller", "<"),
   ("larger", ">"), ("smallerEq", "<="), ("largerEq", ">="), ("leftShift", "<<"),
   ("rightArithShift", ">>"), ("rightLogShift", ">>>"), ("to", "to"), ("add", "+"),
   ("subtract", "-"), ("multiply", "*"), ("divide", "/"), ("dotMultiply", ".*"),
   ("dotDivide", "./"), ("mod", "mod"), ("unaryPlus", "+"), ("unaryMinus", "-"),
   ("bitNot", "~"), ("not", "not"), ("pow", "^"), ("dotPow", ".^"),
   ("factorial", "!")]

/-- The runtime value of `(accessor.object.type as SymbolNode).name`: the
TypeScript cast has no runtime effect, so this reads the property `name` off
the STRING `accessor.object.type`; a string has no `name` property, so the
result is always `undefined`. -/
def jsStringNameProp (_typeStr : String) : Option String := none

/-- The regex capture `value.match(/^idgoal=(\d+)$/)[1]`: the digits after
`idgoal=` when the whole string matches, otherwise `none` (in JS, reading
`[1]` of the `null` returned by a failed match throws a TypeError). -/
def idgoalCapture (v : String) : Option String :=
  match v.toList with
  | 'i' :: 'd' :: 'g' :: 'o' :: 'a' :: 'l' :: '=' :: rest =>
      if ¬ rest = [] ∧ rest.all (fun c => '0' ≤ c ∧ c ≤ '9') then some rest.asString
      else none
  | _ => none

/-- The chain appended by `relational.conditionals.forEach` after the first
operand: for each conditional `op` (index `i`), append
a space, `OperatorNodeMap[op]` (JS renders a missing entry as "undefined"),
a space and the already-emitted text of `params[i + 1]` (an out-of-range
access is `toLookerString(undefined)`, which returns the empty string). -/
def relationalChain (conditionals : List String) (parts : List String) : String :=
  (conditionals.enum.foldl
    (fun acc p =>
      acc ++ " " ++ jsTemplate (jsObjGet OperatorNodeMap p.2) ++ " "
        ++ ((parts.get? (p.1 + 1)).getD ""))
    ((parts.get? 0).getD ""))

mutual

/-- Embedding of the source's `toLookerString(ast)` (the recursive emitter):
`Except.error` models a thrown `Error`. In the `AccessorNode` branch the
guard condition mirrors the source exactly: it reads
`(accessor.object.type as SymbolNode).name` — the `name` property of a type
STRING, i.e. `undefined` — so its middle disjunct is always true. In the
`FunctionNode` branch the source mutates `ast.fn.name` to the mapped name
and returns `ast.toString()`. In the `RelationalNode` branch the source
emits `params[0]` then appends one step per conditional; mathjs guarantees
`params.length === conditionals.length + 1`, and the embedding emits the
params once in order and joins them with `relationalChain`. -/
def toLookerString : MathNode → Except String String
  | .accessor object dimensions =>
      if ¬ (MathNode.nodeType object) = "SymbolNode"
          ∨ ¬ jsStringNameProp (MathNode.nodeType object) = some "$goals"
          ∨ dimensions.length > 1 then
        .error ("Invalid accessor '" ++ nodeToString (.accessor object dimensions)
          ++ "' found in formula. Currently only the $goals column can"
          ++ " be used this way, and with only one dimension.")
      else
        match dimensions.get? 0 with
        | none =>
            -- `dimensions[0]` is undefined and reading `.type` of it throws
            .error "TypeError: Cannot read properties of undefined (reading type)"
        | some idgoalIndex =>
          if ¬ (MathNode.nodeType idgoalIndex) = "ConstantNode" then
            .error ("Invalid goal index in '" ++ nodeToString (.accessor object dimensions)
              ++ "', expected something like '$goals[\"idgoal=1\"]'.")
          else
            match idgoalIndex with
            | .constantStr v =>
              (match idgoalCapture v with
               | none =>
                   -- `.match(...)` returned null and `null[1]` throws
                   .error "TypeError: Cannot read properties of null (reading 1)"
               | some idgoal =>
                   .ok ("$goals_" ++ idgoal ++ "_"
                     ++ jsTemplate ((dimensions.get? 1).map nodeToString)))
            | _ =>
                -- `(idgoalIndex.value as string).match` on a non-string throws
                .error "TypeError: value.match is not a function"
  | .conditional condition trueExpr falseExpr => do
      let c ← toLookerString condition
      let t ← toLookerString trueExpr
      let f ← toLookerString falseExpr
      .ok ("IF(" ++ c ++ ", " ++ t ++ ", " ++ f ++ ")")
  | .operatorNode op _ args => do
      let parts ← emitNodeList args
      .ok (String.intercalate (" " ++ op ++ " ") parts)
  | .parenthesis content => do
      let inner ← toLookerString content
      .ok ("(" ++ inner ++ ")")
  | .relational conditionals params => do
      let parts ← emitNodeList params
      .ok (relationalChain conditionals parts)
  | .constantStr v => .ok (nodeToString (.constantStr v))
  | .constantNum v => .ok (nodeToString (.constantNum v))
  | .symbol name => .ok (nodeToString (.symbol name))
  | .functionCall fnName args =>
      match jsObjGet SUPPORTED_FUNCTIONS fnName with
      | none => .error ("Unknown function used in Matomo formula: " ++ fnName ++ ".")
      | some mapped => .ok (nodeToString (.functionCall mapped args))
  | .arrayNode raw =>
      .error ("unsupported formula: found disallowed node ArrayNode in '" ++ raw ++ "'")
  | .assignmentNode raw =>
      .error ("unsupported formula: found disallowed node AssignmentNode in '" ++ raw ++ "'")
  | .blockNode raw =>
      .error ("unsupported formula: found disallowed node BlockNode in '" ++ raw ++ "'")
  | .rangeNode raw =>
      .error ("unsupported formula: found disallowed node RangeNode in '" ++ raw ++ "'")
  | .objectNode raw =>
      .error ("unsupported formula: found disallowed node ObjectNode in '" ++ raw ++ "'")
  | .functionAssignmentNode raw =>
      .error ("unsupported formula: found disallowed node FunctionAssignmentNode in '"
        ++ raw ++ "'")
  | .indexNode raw =>
      .error ("Unexpected node found in formula: " ++ raw)
  | .unknown typeName raw =>
      .error ("unknown node " ++ typeName ++ " in formula: " ++ raw)

/-- `args.map(toLookerString)`: the first thrown error propagates. -/
def emitNodeList : NodeList → Except String (List String)
  | .nil => .ok []
  | .cons h t => do
      let s ← toLookerString h
      let rest ← emitNodeList t
      .ok (s :: rest)

end

/-- `name.startsWith('$') ? [name.substring(1)] : []`: the contribution of
one symbol name to the temporary-metrics list. -/
def dollarStripped (name : String) : List String :=
  match name.toList with
  | '$' :: rest => [rest.asString]
  | _ => []

mutual

/-- Embedding of the `ast.traverse` pass of `mapMatomoFormulaToLooker`:
visit every node in preorder and push `name.substring(1)` for every
`SymbolNode` whose name starts with `$` (no deduplication — a plain
`Array.push`). mathjs traversal order for each node kind: an accessor
visits its object then its index dimensions, a function call visits its
`fn` symbol then its arguments, a conditional visits condition, true
branch, false branch, a relational visits its params. -/
def collectNode : MathNode → List String
  | .accessor object dimensions => collectNode object ++ collectList dimensions
  | .conditional c t f => collectNode c ++ collectNode t ++ collectNode f
  | .operatorNode _ _ args => collectList args
  | .parenthesis content => collectNode content
  | .relational _ params => collectList params
  | .constantStr _ => []
  | .constantNum _ => []
  | .symbol name => dollarStripped name
  | .functionCall fnName args => dollarStripped fnName ++ collectList args
  | .arrayNode _ => []
  | .assignmentNode _ => []
  | .blockNode _ => []
  | .rangeNode _ => []
  | .objectNode _ => []
  | .functionAssignmentNode _ => []
  | .indexNode _ => []
  | .unknown _ _ => []

/-- Traversal over a list of child nodes, left to right. -/
def collectList : NodeList → List String
  | .nil => []
  | .cons h t => collectNode h ++ collectList t

end

mutual

/-- The number of `SymbolNode`s with name `$` ++ `n` in the tree (counting
the `fn` symbol of a function call, which the traversal also visits). -/
def countDollarSym (n : String) : MathNode → Nat
  | .accessor object dimensions => countDollarSym n object + countDollarSymList n dimensions
  | .conditional c t f => countDollarSym n c + countDollarSym n t + countDollarSym n f
  | .operatorNode _ _ args => countDollarSymList n args
  | .parenthesis content => countDollarSym n content
  | .relational _ params => countDollarSymList n params
  | .constantStr _ => 0
  | .constantNum _ => 0
  | .symbol name => if name = "$" ++ n then 1 else 0
  | .functionCall fnName args =>
      (if fnName = "$" ++ n then 1 else 0) + countDollarSymList n args
  | .arrayNode _ => 0
  | .assignmentNode _ => 0
  | .blockNode _ => 0
  | .rangeNode _ => 0
  | .objectNode _ => 0
  | .functionAssignmentNode _ => 0
  | .indexNode _ => 0
  | .unknown _ _ => 0

/-- List version of `countDollarSym`. -/
def countDollarSymList (n : String) : NodeList → Nat
  | .nil => 0
  | .cons h t => countDollarSym n h + countDollarSymList n t

end

/-- The translation result (`{ lookerFormula?, temporaryMetrics }`). -/
structure TranslationResult where
  lookerFormula : Option String := none
  temporaryMetrics : List String := []
deriving DecidableEq, Repr

/-- The part of `mapMatomoFormulaToLooker` after parsing: collect the
temporary metrics by traversal, then emit the Looker formula. -/
def mapAstToLooker (ast : MathNode) : Except String TranslationResult := do
  let temporaryMetrics := collectNode ast
  let lookerFormula ← toLookerString ast
  .ok { lookerFormula := some lookerFormula, temporaryMetrics := temporaryMetrics }

/-- Embedding of the exported `mapMatomoFormulaToLooker(formula)`. Parsing
(`math.parse`) is the external mathjs library, supplied as an oracle; a
parse failure is wrapped in the source's "Failed to parse formula" error.
An absent or empty (falsy) formula returns the empty result. -/
def mapMatomoFormulaToLooker (parse : String → Except String MathNode)
    (formula : Option String) : Except String TranslationResult :=
  if ¬ jsTruthyStr formula then .ok { temporaryMetrics := [] }
  else
    match parse (jsTemplate formula) with
    | .error e =>
        .error ("Failed to parse formula '" ++ jsTemplate formula ++ "': " ++ e)
    | .ok ast => mapAstToLooker ast

/-! ## The batch request dispatcher (source: `fetchAll` and its helpers)

Collaborators are supplied through `FetchEnv`: the user-property store
(`PropertiesService`), the user cache (`CacheService`), the JSON codec,
`Utilities.base64Encode` / `decodeURIComponent`, the clock (`Date.now` as a
monotone call counter), the runtime meter (`getScriptElapsedTime`, whose
implementation lives outside `src/`), and the batch transport
(`UrlFetchApp.fetchAll`). -/

/-- A decoded JSON payload, as far as `fetchAll` inspects it: the optional
`result` and `message` fields. -/
structure ApiResponse where
  result : Option String := none
  message : Option String := none
deriving DecidableEq, Repr

/-- One transport response: the HTTP status code and the raw body text. -/
structure HttpResponse where
  code : Int
  body : String
deriving DecidableEq, Repr

/-- The outcome of one `UrlFetchApp.fetchAll` batch call: the parallel
response list, or a thrown transport error with its message. -/
inductive TransportResult where
  | ok (responses : List HttpResponse)
  | exn (message : String)
deriving DecidableEq, Repr

/-- A request: `{ method, params? }`. -/
structure MatomoRequestParams where
  method : String
  params : Option (List (String × String)) := none
deriving DecidableEq, Repr

/-- The `ApiFetchOptions` argument of `fetchAll`. -/
structure ApiFetchOptions where
  instanceUrl : Option String := none
  token : Option String := none
  cacheKey : Option String := none
  cacheTtl : Option Int := none
  checkRuntimeLimit : Bool := false
  runtimeLimitAbortMessage : Option String := none
  throwOnFailedRequest : Bool := false
deriving DecidableEq, Repr

/-- JS `a > 0` over a possibly-undefined number (`undefined > 0` is false). -/
def jsNumGtZero (a : Option Int) : Bool :=
  match a with
  | some n => 0 < n
  | none => false

/-- A fatal outcome of a `fetchAll` call. Modelled from the spec: the
helpers `throwUserError` and `throwUnexpectedError` are imported from
`./error`, which is not under `src/`; per the spec they raise fatal,
user-facing errors, so both are modelled as error outcomes, alongside an
ordinary thrown `Error` propagating out of the call. -/
inductive FatalError where
  | userError (message : String)
  | unexpectedError (message : String)
  | thrown (message : String)
deriving DecidableEq, Repr

/-- Source constant `MAX_WAIT_BEFORE_RETRY = 32` (seconds). -/
def MAX_WAIT_BEFORE_RETRY : Nat := 32

/-- Embedding of `isApiErrorNonRandom(message)`: the fixed list of
case-insensitive regex tests deciding that an application-level error is
permanent. -/
def isApiErrorNonRandom (message : String) : Bool :=
  let m := (jsToLowerCase message).toList
  matchesGapped m ("requested report").toList ("not found in the list of available reports").toList
    || containsSeq m ("does not support multiple").toList
    || matchesWordRun m ("the plugin ").toList (" is not enabled").toList
    || containsSeq m ("does not exist").toList
    || containsSeq m ("you can't access this resource").toList
    || containsSeq m ("an unexpected website was found").toList
    || containsSeq m ("referrers.getall with multiple sites or dates is not supported").toList

/-- Embedding of `isUrlFetchErrorQuotaLimitReachedError` (the transport
error message is always a string in this model, making the source's
`typeof errorMessage === 'string'` guard vacuous). -/
def isUrlFetchErrorQuotaLimitReachedError (errorMessage : String) : Bool :=
  jsIncludes (jsToLowerCase errorMessage) "service invoked too many times for one day: urlfetch"

/-- Embedding of `isUrlFetchErrorProbablyTemporary`. -/
def isUrlFetchErrorProbablyTemporary (errorMessage : String) : Bool :=
  jsIncludes (jsToLowerCase errorMessage) "address unavailable"
    || jsIncludes (jsToLowerCase errorMessage) "dns error"
    || jsIncludes (jsToLowerCase errorMessage) "property fetchall on object urlfetchapp"

/-- The result object of `extractBasicAuthFromUrl`. -/
structure BasicAuthResult where
  authHeaders : List (String × String)
  urlWithoutAuth : String
deriving DecidableEq, Repr

/-- The regex `/^(https?):\/\/([^:]+)(?::([^@]+)?)?@(.+)/` with JS greedy
backtracking: returns `(protocol, username, password?, restOfUrl)`. The
username is the longest colon-free run that is immediately followed either
by `@` or by `:` plus an at-most-one password and `@`, with a nonempty
remainder. -/
def matchBasicAuth (url : String) : Option (String × String × Option String × String) :=
  let cs := url.toList
  let tryFrom := fun (protocol : String) (r : List Char) =>
    let run := r.takeWhile (fun c => ¬ c = ':')
    (List.range run.length).findSome? (fun d =>
      let len := run.length - d
      let u := r.take len
      let after := r.drop len
      match after with
      | ':' :: ac =>
          let pw := ac.takeWhile (fun c => ¬ c = '@')
          (match ac.drop pw.length with
           | '@' :: tail =>
               if ¬ tail = [] then
                 some (protocol, u.asString,
                   (if pw = [] then none else some pw.asString), tail.asString)
               else none
           | _ => none)
      | '@' :: tail =>
          if ¬ tail = [] then some (protocol, u.asString, none, tail.asString) else none
      | _ => none)
  if ("https://").toList.isPrefixOf cs then tryFrom "https" (cs.drop 8)
  else if ("http://").toList.isPrefixOf cs then tryFrom "http" (cs.drop 7)
  else none

/-- Embedding of `extractBasicAuthFromUrl(url)`. The JS builtins
`decodeURIComponent` (which throws `URIError` on a malformed escape,
modelled by `none`) and `Utilities.base64Encode` are passed as oracles. -/
def extractBasicAuthFromUrl (uriDecode : String → Option String)
    (base64Encode : String → String) (url : String) : Except String BasicAuthResult :=
  match matchBasicAuth url with
  | none => .ok { authHeaders := [], urlWithoutAuth := url }
  | some (protocol, httpUsername, httpPassword, restOfUrl) =>
      if ¬ httpUsername = "" then
        match uriDecode httpUsername with
        | none => .error "URIError: URI malformed"
        | some u =>
          match uriDecode (httpPassword.getD "") with
          | none => .error "URIError: URI malformed"
          | some pw =>
            .ok { authHeaders := [("Authorization", "Basic " ++ base64Encode (u ++ ":" ++ pw))],
                  urlWithoutAuth := protocol ++ "://" ++ restOfUrl }
      else .ok { authHeaders := [], urlWithoutAuth := url }

/-- The replace of `/\/+(index\.php\??)?$/` by the empty string: a suffix
made of one or more slashes, optionally followed by `index.php` or
`index.php?`, is removed (the regex anchors at the end, so the leftmost
match is the longest such suffix). -/
def stripTrailingIndexPhp (url : String) : String :=
  let cs := url.toList
  let isMatch := fun (i : Nat) =>
    let suffix := cs.drop i
    let slashes := suffix.takeWhile (fun c => c = '/')
    let rest := suffix.drop slashes.length
    ¬ slashes = [] ∧ (rest = [] ∨ rest = ("index.php").toList ∨ rest = ("index.php?").toList)
  match (List.range cs.length).find? isMatch with
  | some i => (cs.take i).asString
  | none => url

/-- The canonical query string of one request (the body of the
`requests.map` that builds `allUrls`): the object literal
`{ module: 'API', method, format: 'JSON', ...params, [sourceIdentifier]: '1' }`
serialized as `name=encodeURIComponent(value)` pairs joined by `&`. In this
model every value is a string (as the TypeScript types state), so the
source's `typeof value !== 'undefined'` filter keeps every entry. -/
def buildQuery (sourceIdentifier : String) (r : MatomoRequestParams) : String :=
  let finalParams :=
    jsObjSet
      ((r.params.getD []).foldl (fun acc p => jsObjSet acc p.1 p.2)
        [("module", "API"), ("method", r.method), ("format", "JSON")])
      sourceIdentifier "1"
  String.intercalate "&" (finalParams.map (fun p => p.1 ++ "=" ++ encodeURIComponent p.2))

/-- The length a JS array reports after sparse writes: one past the largest
written index. -/
def rcLen (rc : List (Nat × ApiResponse)) : Nat :=
  rc.foldl (fun m p => max m (p.1 + 1)) 0

/-- The final `responseContents` array: a `none` entry is a hole (an index
never written). -/
def rcToList (rc : List (Nat × ApiResponse)) : List (Option ApiResponse) :=
  (List.range (rcLen rc)).map (fun i => jsObjGet rc i)

/-- The environment of one `fetchAll` call: module-level configuration
(`SCRIPT_RUNTIME_LIMIT`, `API_REQUEST_RETRY_LIMIT_IN_SECS`, both already
`parseInt(...) || 0`, and `env.API_REQUEST_SOURCE_IDENTIFIER`) and the
external collaborators. `nowAt k` is the value of the `k`-th `Date.now()`
call (call 0 sets `startTime`); `elapsedAt k` is `getScriptElapsedTime()`
in round `k` (modelled from the spec: the caller-tracked elapsed execution
time, implemented outside `src/`); `transportAt k` is the round-`k`
outcome of `UrlFetchApp.fetchAll`. -/
structure FetchEnv where
  scriptRuntimeLimit : Nat := 0
  apiRequestRetryLimitInSecs : Nat := 0
  sourceIdentifier : String := "fromLookerStudio"
  properties : String → Option String := fun _ => none
  cacheGet : String → Option String := fun _ => none
  decodeCachedArray : String → Option (List (Option ApiResponse)) := fun _ => none
  parseBody : String → Except String ApiResponse := fun _ => .ok {}
  uriDecode : String → Option String := fun s => some s
  base64Encode : String → String := fun s => s
  nowAt : Nat → Nat := fun _ => 0
  elapsedAt : Nat → Nat := fun _ => 0
  transportAt : Nat → TransportResult := fun _ => .ok []

/-- The mutable state of the `responses.forEach` classification pass:
the pending map `allUrlsMappedToIndex`, the sparse `responseContents`
array, and `countOfFailedRequests`. -/
structure RoundState where
  pending : List (String × Nat)
  rc : List (Nat × ApiResponse)
  countOfFailedRequests : Nat
deriving DecidableEq, Repr

/-- Classification of one response (the body of the `responses.forEach`):
status codes outside `[200, 400)` are failures — 420 and 502–504 retryable
(counted, nothing written, the request stays pending), all others terminal
(an error entry with a 100-character body excerpt is written and the
request is deleted from the pending map); codes in `[200, 400)` are decoded
(`JSON.parse` of the body, `'{}'` when the body is empty; a parse exception
propagates) and stored even if they carry an API error, and the request is
deleted from the pending map unless the payload is an API error whose
message is not in the non-random list (then it stays pending for retry). -/
def applyOneResponse (parseBody : String → Except String ApiResponse)
    (st : RoundState) (urlFetched : String) (r : HttpResponse) : Except String RoundState :=
  match jsObjGet st.pending urlFetched with
  | none => .ok st  -- unreachable: `urlsToFetch` are exactly the pending keys
  | some responseIndex =>
    if r.code < 200 ∨ 400 ≤ r.code then
      if (502 ≤ r.code ∧ r.code ≤ 504) ∨ r.code = 420 then
        .ok { st with countOfFailedRequests := st.countOfFailedRequests + 1 }
      else
        .ok { pending := jsObjDelete st.pending urlFetched,
              rc := jsObjSet st.rc responseIndex
                { result := some "error",
                  message := some ("Matomo server failed with code " ++ toString r.code
                    ++ ". Truncated response: " ++ truncate100 r.body) },
              countOfFailedRequests := st.countOfFailedRequests }
    else
      match parseBody (if r.body = "" then "\x7b\x7d" else r.body) with
      | .error e => .error e
      | .ok payload =>
        if payload.result = some "error"
            ∧ ¬ isApiErrorNonRandom (jsTemplate payload.message) then
          .ok { st with
                rc := jsObjSet st.rc responseIndex payload,
                countOfFailedRequests := st.countOfFailedRequests + 1 }
        else
          .ok { pending := jsObjDelete st.pending urlFetched,
                rc := jsObjSet st.rc responseIndex payload,
                countOfFailedRequests := st.countOfFailedRequests }

/-- The whole `responses.forEach((r, i) => ...)` pass: each response is
matched to `urlsToFetch[i].wholeUrl` by position. -/
def applyResponses (parseBody : String → Except String ApiResponse)
    (urlsToFetch : List String) :
    RoundState → List (Nat × HttpResponse) → Except String RoundState
  | st, [] => .ok st
  | st, (i, r) :: rest =>
    match urlsToFetch.get? i with
    | none => .error "TypeError: Cannot read properties of undefined (reading wholeUrl)"
    | some urlFetched =>
      match applyOneResponse parseBody st urlFetched r with
      | .error e => .error e
      | .ok st2 => applyResponses parseBody urlsToFetch st2 rest

/-- The loop accumulator: the pending map, the sparse response array, the
current backoff interval `currentWaitBeforeRetryTime` (ms), and the
instrumentation trail (batches issued, sleeps performed). -/
structure LoopAcc where
  pending : List (String × Nat)
  rc : List (Nat × ApiResponse)
  wait : Nat
  fetched : List (List String)
  sleeps : List Nat
deriving DecidableEq, Repr

/-- What the retry loop hands to finalization. -/
structure LoopDone where
  rc : List (Nat × ApiResponse)
  fetched : List (List String)
  sleeps : List Nat
  fatal : Option FatalError
  ranOut : Bool
deriving DecidableEq, Repr

/-- The user-facing quota error raised by `throwUserError` when the
transport reports daily quota exhaustion. -/
def QUOTA_MESSAGE : String :=
  "The \"urlfetch\" daily quota for your account has been reached, further requests for today may not work. See https://developers.google.com/apps-script/guides/services/quotas for more information."

/-- The retry loop of `fetchAll` (`while (Object.keys(allUrlsMappedToIndex).length
&& Date.now() < startTime + API_REQUEST_RETRY_LIMIT_IN_SECS * 1000)`).
`k` counts completed guard evaluations (the `k`-th evaluation reads
`nowAt (k + 1)`); `fuel` bounds the number of rounds this model unrolls —
a run that still wants another round with no fuel left reports
`ranOut := true`. Per round: the runtime-budget check (aborting via
`throwUnexpectedError` with the pending requests in the message), the
batch fetch (a thrown transport error raises the quota user error, or
re-throws unless its message looks temporary, in which case the round
processes an empty response list), the response classification pass, and
— when requests remain pending — `Utilities.sleep(currentWaitBeforeRetryTime)`
followed by doubling the interval up to `MAX_WAIT_BEFORE_RETRY * 1000`.
When a JSON parse exception aborts the call mid-pass, the partially
updated response array is discarded with it (the caller sees only the
thrown error). -/
def fetchLoop (env : FetchEnv) (options : ApiFetchOptions) (startTime : Nat) :
    Nat → Nat → LoopAcc → LoopDone
  | fuel, k, acc =>
    if acc.pending = []
        ∨ ¬ env.nowAt (k + 1) < startTime + env.apiRequestRetryLimitInSecs * 1000 then
      { rc := acc.rc, fetched := acc.fetched, sleeps := acc.sleeps,
        fatal := none, ranOut := false }
    else
      match fuel with
      | 0 =>
          { rc := acc.rc, fetched := acc.fetched, sleeps := acc.sleeps,
            fatal := none, ranOut := true }
      | fuel' + 1 =>
        if options.checkRuntimeLimit
            ∧ env.scriptRuntimeLimit > 0
            ∧ env.elapsedAt k > env.scriptRuntimeLimit * 1000 then
          let allRequests := String.intercalate ", " (jsObjKeys acc.pending)
          let message := jsTemplate (jsOrStr options.runtimeLimitAbortMessage
            (some "This request is taking too long, aborting."))
          { rc := acc.rc, fetched := acc.fetched, sleeps := acc.sleeps,
            fatal := some (.unexpectedError
              (message ++ " (Requests being sent: " ++ allRequests ++ ").")),
            ranOut := false }
        else
          let urlsToFetch := jsObjKeys acc.pending
          let fetched := acc.fetched ++ [urlsToFetch]
          match env.transportAt k with
          | .exn msg =>
              if isUrlFetchErrorQuotaLimitReachedError msg then
                { rc := acc.rc, fetched := fetched, sleeps := acc.sleeps,
                  fatal := some (.userError QUOTA_MESSAGE), ranOut := false }
              else if ¬ isUrlFetchErrorProbablyTemporary msg then
                { rc := acc.rc, fetched := fetched, sleeps := acc.sleeps,
                  fatal := some (.thrown msg), ranOut := false }
              else
                -- `responses = []`: the forEach is a no-op, the nonempty
                -- pending set forces a sleep before the next round
                fetchLoop env options startTime fuel' (k + 1)
                  { pending := acc.pending, rc := acc.rc,
                    wait := min (acc.wait * 2) (MAX_WAIT_BEFORE_RETRY * 1000),
                    fetched := fetched, sleeps := acc.sleeps ++ [acc.wait] }
          | .ok responses =>
              match applyResponses env.parseBody urlsToFetch
                  { pending := acc.pending, rc := acc.rc, countOfFailedRequests := 0 }
                  responses.enum with
              | .error e =>
                  { rc := acc.rc, fetched := fetched, sleeps := acc.sleeps,
                    fatal := some (.thrown e), ranOut := false }
              | .ok st =>
                  if ¬ st.pending = [] then
                    fetchLoop env options startTime fuel' (k + 1)
                      { pending := st.pending, rc := st.rc,
                        wait := min (acc.wait * 2) (MAX_WAIT_BEFORE_RETRY * 1000),
                        fetched := fetched, sleeps := acc.sleeps ++ [acc.wait] }
                  else
                    fetchLoop env options startTime fuel' (k + 1)
                      { pending := st.pending, rc := st.rc, wait := acc.wait,
                        fetched := fetched, sleeps := acc.sleeps }

/-- JSON string escaping (the characters `JSON.stringify` escapes in the
strings this model serializes). -/
def jsonEscapeChar (c : Char) : List Char :=
  if c = '"' then ['\\', '"']
  else if c = '\\' then ['\\', '\\']
  else if c = Char.ofNat 10 then ['\\', 'n']
  else if c = Char.ofNat 13 then ['\\', 'r']
  else if c = Char.ofNat 9 then ['\\', 't']
  else if c = Char.ofNat 8 then ['\\', 'b']
  else if c = Char.ofNat 12 then ['\\', 'f']
  else if c.toNat < 32 then
    ['\\', 'u', '0', '0', hexDigitUpper (c.toNat / 16), hexDigitUpper (c.toNat % 16)]
  else [c]

/-- A JSON string literal. -/
def jsonStringLit (s : String) : String :=
  "\"" ++ ((s.toList.map jsonEscapeChar).flatten).asString ++ "\""

/-- `JSON.stringify(params)` for the optional request parameter record
(`undefined` prints as the text "undefined" inside the template literal). -/
def jsonStringifyParams : Option (List (String × String)) → String
  | none => "undefined"
  | some ps =>
      "\x7b" ++ String.intercalate ","
        (ps.map (fun p => jsonStringLit p.1 ++ ":" ++ jsonStringLit p.2)) ++ "\x7d"

/-- `JSON.stringify(responseContents)`: the aggregate array as stored in
the cache (the embedding serializes the two fields `fetchAll` itself
inspects; a hole serializes as `null`). -/
def jsonStringifyArr (arr : List (Option ApiResponse)) : String :=
  "[" ++ String.intercalate ","
    (arr.map (fun e =>
      match e with
      | none => "null"
      | some p =>
          "\x7b" ++ String.intercalate ","
            (((match p.result with
               | some r => [jsonStringLit "result" ++ ":" ++ jsonStringLit r]
               | none => [])
              ++ (match p.message with
                  | some m => [jsonStringLit "message" ++ ":" ++ jsonStringLit m]
                  | none => []))) ++ "\x7d")) ++ "]"

/-- The error entries of the final array, with their indices:
`responseContents.map((r, i) => ({ ...r, index: i })).filter((r) => r.result === 'error')`
— JS `map`/`filter` iterate the present indices in ascending order and skip
holes. -/
def errorEntries (rc : List (Nat × ApiResponse)) : List (Nat × ApiResponse) :=
  (List.range (rcLen rc)).filterMap
    (fun i =>
      match jsObjGet rc i with
      | some p => if p.result = some "error" then some (i, p) else none
      | none => none)

/-- The `throwOnFailedRequest` finalization: `some message` when a fatal
error is raised. Exactly one error entry names the failing request's
method, JSON-serialized params and message; more than one names only the
count. -/
def finalizeError (throwOnFailedRequest : Bool) (requests : List MatomoRequestParams)
    (rc : List (Nat × ApiResponse)) : Option String :=
  if throwOnFailedRequest then
    match errorEntries rc with
    | [] => none
    | [e] =>
        (match requests.get? e.1 with
         | none => some "TypeError: Cannot destructure property method of undefined"
         | some req =>
             some ("API method " ++ req.method ++ " failed (params = "
               ++ jsonStringifyParams req.params ++ "): \"" ++ jsTemplate e.2.message ++ "\"."))
    | l => some (toString l.length ++ " API methods failed.")
  else none

/-- The cache read at the top of `fetchAll`: `some arr` when a cache key
and positive TTL are supplied, the cache holds an entry, and `JSON.parse`
decodes it (a decode exception is caught, logged, and treated as a miss). -/
def cacheLookup (env : FetchEnv) (options : ApiFetchOptions) : Option (List (Option ApiResponse)) :=
  if jsTruthyStr options.cacheKey ∧ jsNumGtZero options.cacheTtl then
    match env.cacheGet (jsTemplate options.cacheKey) with
    | some entry => env.decodeCachedArray entry
    | none => none
  else none

/-- What one `fetchAll` call did: its value or fatal error, the batches
issued (each as the list of canonical query strings, the `wholeUrl` field
of the request descriptors), the backoff sleeps performed, the cache write
attempted (key, serialized value, TTL, and whether `cache.put` succeeded —
a failure is caught and only logged), and whether the model ran out of
round fuel. -/
structure FetchOutcome where
  result : Except FatalError (List (Option ApiResponse))
  fetchedRounds : List (List String) := []
  sleeps : List Nat := []
  cachePuts : List (String × String × Int × Bool) := []
  ranOut : Bool := false
deriving DecidableEq, Repr

/-- The body of `fetchAll` past the cache read. `cachePutOk` stands for the
`cache.put` collaborator (whether the write succeeds); `fuel` bounds the
rounds the model unrolls. The stages follow the source: credential
resolution (`options.instanceUrl || userProperties 'dscc.username'`, the
empty string and `undefined` both falsy, no base URL a thrown error),
base-URL normalization and basic-auth extraction, canonical query
construction with `Object.fromEntries` deduplication, the retry loop, the
`throwOnFailedRequest` finalization, and the cache write. -/
def fetchAllUncached (env : FetchEnv) (cachePutOk : String → String → Int → Bool) (fuel : Nat)
    (requests : List MatomoRequestParams) (options : ApiFetchOptions) : FetchOutcome :=
    let instanceUrl := jsOrStr options.instanceUrl (env.properties "dscc.username")
    let _token := jsOrStr options.token (env.properties "dscc.token")
    if ¬ jsTruthyStr instanceUrl then
      { result := .error (.thrown "Unexpected: no matomo base URL configured") }
    else
      let baseUrl := stripTrailingIndexPhp (jsTemplate instanceUrl) ++ "/index.php?"
      match extractBasicAuthFromUrl env.uriDecode env.base64Encode baseUrl with
      | .error e => { result := .error (.thrown e) }
      | .ok _auth =>
        let allUrls := requests.map (buildQuery env.sourceIdentifier)
        let allUrlsMappedToIndex := jsFromEntries (allUrls.enum.map (fun p => (p.2, p.1)))
        let startTime := env.nowAt 0
        let done := fetchLoop env options startTime fuel 0
          { pending := allUrlsMappedToIndex, rc := [], wait := 1000, fetched := [], sleeps := [] }
        match done.fatal with
        | some e =>
            { result := .error e, fetchedRounds := done.fetched,
              sleeps := done.sleeps, ranOut := done.ranOut }
        | none =>
          match finalizeError options.throwOnFailedRequest requests done.rc with
          | some msg =>
              { result := .error (.unexpectedError msg), fetchedRounds := done.fetched,
                sleeps := done.sleeps, ranOut := done.ranOut }
          | none =>
              let arr := rcToList done.rc
              if jsTruthyStr options.cacheKey ∧ jsNumGtZero options.cacheTtl then
                let key := jsTemplate options.cacheKey
                let payload := jsonStringifyArr arr
                let ttl := (options.cacheTtl.getD 0)
                { result := .ok arr, fetchedRounds := done.fetched, sleeps := done.sleeps,
                  cachePuts := [(key, payload, ttl, cachePutOk key payload ttl)],
                  ranOut := done.ranOut }
              else
                { result := .ok arr, fetchedRounds := done.fetched, sleeps := done.sleeps,
                  ranOut := done.ranOut }

/-- Embedding of `fetchAll(requests, options)`: the cache read, then the
uncached body (a decode failure inside a cache hit is caught and falls
through to the uncached body, exactly like a miss). -/
def fetchAll (env : FetchEnv) (cachePutOk : String → String → Int → Bool) (fuel : Nat)
    (requests : List MatomoRequestParams) (options : ApiFetchOptions) : FetchOutcome :=
  match cacheLookup env options with
  | some arr => { result := .ok arr }
  | none => fetchAllUncached env cachePutOk fuel requests options

/-- A concrete environment whose cache holds the entry `"E"` under the key
`"k"`, decoding to a one-entry array (used to instantiate the cache
theorems on a concrete input). -/
def cacheProbeEnv : FetchEnv :=
  { cacheGet := fun k => if k = "k" then some ("E") else none,
    decodeCachedArray := fun s => if s = "E" then some [some {}] else none }

/-- A concrete environment for probing deduplication: a 10-second retry
ceiling, a strictly increasing clock, and a transport whose single
response succeeds with an empty-object payload. -/
def dupProbeEnv : FetchEnv :=
  { apiRequestRetryLimitInSecs := 10
    sourceIdentifier := "s"
    nowAt := fun k => k
    transportAt := fun _ => .ok [{ code := 200, body := "X" }]
    parseBody := fun _ => .ok {} }

/-- The backoff discipline: a sleep trail starting from interval `w` where
each sleep equals the current interval and the interval then becomes
`min(2 * interval, MAX_WAIT_BEFORE_RETRY * 1000)`. -/
def backoffChain : Nat → List Nat → Prop
  | _, [] => True
  | w, s :: rest => s = w ∧ backoffChain (min (w * 2) (MAX_WAIT_BEFORE_RETRY * 1000)) rest

/-! ## Lemmas about the JS object model -/

/-- Replacing the value at key `k` does not change lookups of other keys. -/
theorem find?_key_replace {κ α : Type} [DecidableEq κ] (o : List (κ × α)) (k k' : κ) (v : α)
    (hne : ¬ k' = k) :
    (o.map (fun p => if p.1 = k then (k, v) else p)).find? (fun p => decide (p.1 = k'))
      = o.find? (fun p => decide (p.1 = k')) := by
  induction o with
  | nil => rfl
  | cons p t ih =>
    by_cases hp : p.1 = k
    · have h1 : ¬ ((k : κ), v).1 = k' := fun h => hne h.symm
      have h2 : ¬ p.1 = k' := by rw [hp]; exact fun h => hne h.symm
      simp only [List.map_cons, hp, if_true, List.find?_cons, decide_eq_true_eq]
      simp [h1, h2, ih]
    · simp only [List.map_cons, hp, if_false, List.find?_cons]
      by_cases hq : p.1 = k'
      · simp [hq]
      · simp [hq, ih]

/-- After replacing at a present key `k`, looking `k` up finds `(k, v)`. -/
theorem find?_key_replace_self {κ α : Type} [DecidableEq κ] (o : List (κ × α)) (k : κ) (v : α)
    (hany : o.any (fun p => decide (p.1 = k)) = true) :
    (o.map (fun p => if p.1 = k then (k, v) else p)).find? (fun p => decide (p.1 = k))
      = some (k, v) := by
  induction o with
  | nil => simp at hany
  | cons p t ih =>
    by_cases hp : p.1 = k
    · simp [hp, List.find?_cons]
    · simp only [List.any_cons, Bool.or_eq_true, decide_eq_true_eq] at hany
      rcases hany with h | h
      · exact absurd h hp
      · simp only [List.map_cons, hp, if_false, List.find?_cons]
        simp [hp, ih h]

/-- The read-over-write law for the JS assignment model. -/
theorem jsObjGet_set {κ α : Type} [DecidableEq κ] (o : List (κ × α)) (k k' : κ) (v : α) :
    jsObjGet (jsObjSet o k v) k' = if k' = k then some v else jsObjGet o k' := by
  unfold jsObjGet jsObjSet
  by_cases hany : o.any (fun p => decide (p.1 = k)) = true
  · simp only [hany, if_true]
    by_cases hk : k' = k
    · subst hk
      rw [find?_key_replace_self o k' v hany]
      simp
    · rw [find?_key_replace o k k' v hk]
      simp [hk]
  · rw [Bool.not_eq_true] at hany
    simp only [hany, Bool.false_eq_true, if_false]
    rw [List.find?_append]
    rw [List.any_eq_false] at hany
    by_cases hk : k' = k
    · subst hk
      have hnone : o.find? (fun p => decide (p.1 = k')) = none := by
        rw [List.find?_eq_none]
        intro x hx
        simpa using hany x hx
      simp [hnone, List.find?_cons]
    · have hkk : ¬ k = k' := fun h => hk h.symm
      have hone : ([(k, v)] : List (κ × α)).find? (fun p => decide (p.1 = k')) = none := by
        simp [List.find?_cons, hkk]
      simp [hone, hk]

/-- Every pair of `jsObjSet o k v` is the inserted pair or an untouched pair
with a different key. -/
theorem mem_jsObjSet {κ α : Type} [DecidableEq κ] {o : List (κ × α)} {k : κ} {v : α}
    {p : κ × α} (hp : p ∈ jsObjSet o k v) : p = (k, v) ∨ (p ∈ o ∧ ¬ p.1 = k) := by
  unfold jsObjSet at hp
  by_cases hany : o.any (fun q => decide (q.1 = k)) = true
  · simp only [hany, if_true, List.mem_map] at hp
    obtain ⟨q, hq, hqe⟩ := hp
    by_cases hk : q.1 = k
    · simp only [hk, if_true] at hqe
      exact Or.inl hqe.symm
    · simp only [hk, if_false] at hqe
      exact Or.inr ⟨hqe ▸ hq, hqe ▸ hk⟩
  · rw [Bool.not_eq_true] at hany
    simp only [hany, Bool.false_eq_true, if_false, List.mem_append, List.mem_singleton] at hp
    rcases hp with h | h
    · rw [List.any_eq_false] at hany
      exact Or.inr ⟨h, by simpa using hany p h⟩
    · exact Or.inl h

/-- `jsObjSet` keeps the keys duplicate-free. -/
theorem jsObjSet_keys_nodup {κ α : Type} [DecidableEq κ] {o : List (κ × α)} (k : κ) (v : α)
    (h : (jsObjKeys o).Nodup) : (jsObjKeys (jsObjSet o k v)).Nodup := by
  unfold jsObjSet jsObjKeys
  by_cases hany : o.any (fun p => decide (p.1 = k)) = true
  · simp only [hany, if_true, List.map_map]
    have : ((fun p => p.1) ∘ fun p : κ × α => if p.1 = k then (k, v) else p) = fun p => p.1 := by
      funext p
      by_cases hp : p.1 = k <;> simp [hp]
    rw [this]
    exact h
  · rw [Bool.not_eq_true] at hany
    simp only [hany, Bool.false_eq_true, if_false, List.map_append]
    rw [List.nodup_append]
    refine ⟨h, List.nodup_singleton k, ?_⟩
    intro a ha hb
    simp only [List.map_cons, List.map_nil, List.mem_singleton] at hb
    subst hb
    rw [List.any_eq_false] at hany
    simp only [List.mem_map] at ha
    obtain ⟨p, hp, hpe⟩ := ha
    have hpk := hany p hp
    simp only [decide_eq_true_eq] at hpk
    exact hpk hpe

/-- The keys of an `Object.fromEntries` result are duplicate-free. -/
theorem jsFromEntries_keys_nodup {κ α : Type} [DecidableEq κ] (l : List (κ × α)) :
    (jsObjKeys (jsFromEntries l)).Nodup := by
  unfold jsFromEntries
  suffices h : ∀ acc : List (κ × α), (jsObjKeys acc).Nodup →
      (jsObjKeys (l.foldl (fun acc p => jsObjSet acc p.1 p.2) acc)).Nodup by
    exact h [] (by simp [jsObjKeys])
  induction l with
  | nil => exact fun acc h => h
  | cons p t ih =>
    intro acc hacc
    exact ih (jsObjSet acc p.1 p.2) (jsObjSet_keys_nodup p.1 p.2 hacc)

/-- Deleting is a sublist (order-preserving removal). -/
theorem jsObjDelete_sublist {κ α : Type} [DecidableEq κ] (o : List (κ × α)) (k : κ) :
    (jsObjDelete o k).Sublist o :=
  List.filter_sublist o

/-- A successful read returns a value of the map. -/
theorem jsObjGet_mem_values {κ α : Type} [DecidableEq κ] {o : List (κ × α)} {k : κ} {v : α}
    (h : jsObjGet o k = some v) : v ∈ o.map (fun p => p.2) := by
  unfold jsObjGet at h
  rcases hf : o.find? (fun p => decide (p.1 = k)) with _ | p
  · rw [hf] at h
    simp at h
  · rw [hf] at h
    simp only [Option.map] at h
    cases h
    exact List.mem_map_of_mem _ (List.mem_of_find?_eq_some hf)

/-! ## C1, C5, C9: the emitter -/

/-- C1: claimed — `translate` on `$goals["idgoal=3"]["revenue"]` succeeds
and emits `$goals_3_revenue`. In the source the accessor guard reads
`(accessor.object.type as SymbolNode).name`, i.e. the `name` property of
the type STRING, which is `undefined` and never equal to `'$goals'`; the
guard also rejects every index with more than one dimension even though the
success template reads `dimensions[1]`. Hence EVERY `AccessorNode` throws
`Invalid accessor ...` and the claimed translation is unreachable. -/
theorem C1_accessor_always_throws (object : MathNode) (dimensions : NodeList) :
    toLookerString (.accessor object dimensions)
      = .error ("Invalid accessor '" ++ nodeToString (.accessor object dimensions)
          ++ "' found in formula. Currently only the $goals column can"
          ++ " be used this way, and with only one dimension.") := by
  simp [toLookerString, jsStringNameProp]

/-- C5: claimed — an operator node's symbol is never silently dropped. The
source emits `operator.args.map(toLookerString).join(' <op> ')`, and a JS
`join` on a one-element array emits no separator: the unary minus of `-$a`
translates to just `$a`, silently dropping the operator (no error raised,
the minus sign absent from the output). -/
theorem C5_unary_minus_dropped :
    toLookerString (.operatorNode "-" "unaryMinus" (.cons (.symbol "$a") .nil)) = .ok "$a"
      ∧ containsSeq ("$a").toList ("-").toList = false := by
  constructor
  · decide
  · decide

/-- C9: confirmed — the allow-list maps `min`/`max`/`abs` to
`NARY_MIN`/`NARY_MAX`/`ABS` (in particular `min($a, $b)` emits
`NARY_MIN($a, $b)`), and a function call whose name is not in the
allow-list throws the `Unknown function` error naming it. -/
theorem C9_function_allowlist :
    toLookerString (.functionCall "min" (.cons (.symbol "$a") (.cons (.symbol "$b") .nil)))
        = .ok "NARY_MIN($a, $b)"
      ∧ jsObjGet SUPPORTED_FUNCTIONS "min" = some "NARY_MIN"
      ∧ jsObjGet SUPPORTED_FUNCTIONS "max" = some "NARY_MAX"
      ∧ jsObjGet SUPPORTED_FUNCTIONS "abs" = some "ABS"
      ∧ ∀ (fnName : String) (args : NodeList), jsObjGet SUPPORTED_FUNCTIONS fnName = none →
          toLookerString (.functionCall fnName args)
            = .error ("Unknown function used in Matomo formula: " ++ fnName ++ ".") := by
  refine ⟨by decide, by decide, by decide, by decide, ?_⟩
  intro fnName args h
  simp [toLookerString, h]

/-! ## C4: the temporary-metrics traversal -/

/-- Conversion between a character list and the string it spells. -/
theorem asString_eq_iff (l : List Char) (t : String) : l.asString = t ↔ l = t.toList := by
  constructor
  · intro h
    rw [← h]
    rfl
  · intro h
    rw [h]
    rfl

/-- How often the sigil-stripped name of one symbol counts as `n`: once
when the symbol is literally `$` ++ `n`, not at all otherwise. -/
theorem count_dollarStripped (name n : String) :
    List.count n (dollarStripped name) = if name = "$" ++ n then 1 else 0 := by
  have hdollar : ("$" ++ n).toList = '$' :: n.toList := by
    show ("$" ++ n).data = '$' :: n.data
    rw [String.data_append]
    rfl
  unfold dollarStripped
  rcases h : name.toList with _ | ⟨c, rest⟩
  · have : ¬ name = "$" ++ n := by
      intro he
      rw [he, hdollar] at h
      cases h
    simp [this]
  · by_cases hc : c = '$'
    · subst hc
      have hiff : rest.asString = n ↔ name = "$" ++ n := by
        rw [asString_eq_iff]
        constructor
        · intro hr
          have : name.toList = ("$" ++ n).toList := by rw [h, hdollar, hr]
          calc name = name.toList.asString := rfl
            _ = ("$" ++ n).toList.asString := by rw [this]
            _ = "$" ++ n := rfl
        · intro he
          rw [he, hdollar] at h
          cases h
          rfl
      simp only [List.count_singleton]
      by_cases he : name = "$" ++ n
      · simp [he, hiff.mpr he, beq_iff_eq]
      · have : ¬ rest.asString = n := fun hr => he (hiff.mp hr)
        simp [he, beq_iff_eq, this]
    · have : ¬ name = "$" ++ n := by
        intro he
        rw [he, hdollar] at h
        cases h
        exact hc rfl
      simp [hc, this]

mutual

/-- The multiplicity of `n` in the collected temporary metrics equals the
number of `$`-prefixed symbol nodes spelling `$n` in the tree. -/
theorem count_collectNode (n : String) :
    ∀ ast : MathNode, List.count n (collectNode ast) = countDollarSym n ast
  | .accessor object dims => by
      simp only [collectNode, countDollarSym, List.count_append,
        count_collectNode n object, count_collectList n dims]
  | .conditional c t f => by
      simp only [collectNode, countDollarSym, List.count_append,
        count_collectNode n c, count_collectNode n t, count_collectNode n f]
  | .operatorNode _ _ args => by
      simp only [collectNode, countDollarSym, count_collectList n args]
  | .parenthesis content => by
      simp only [collectNode, countDollarSym, count_collectNode n content]
  | .relational _ params => by
      simp only [collectNode, countDollarSym, count_collectList n params]
  | .constantStr _ => by simp [collectNode, countDollarSym]
  | .constantNum _ => by simp [collectNode, countDollarSym]
  | .symbol name => by
      simp only [collectNode, countDollarSym, count_dollarStripped]
  | .functionCall fnName args => by
      simp only [collectNode, countDollarSym, List.count_append,
        count_dollarStripped, count_collectList n args]
  | .arrayNode _ => by simp [collectNode, countDollarSym]
  | .assignmentNode _ => by simp [collectNode, countDollarSym]
  | .blockNode _ => by simp [collectNode, countDollarSym]
  | .rangeNode _ => by simp [collectNode, countDollarSym]
  | .objectNode _ => by simp [collectNode, countDollarSym]
  | .functionAssignmentNode _ => by simp [collectNode, countDollarSym]
  | .indexNode _ => by simp [collectNode, countDollarSym]
  | .unknown _ _ => by simp [collectNode, countDollarSym]

/-- List version of `count_collectNode`. -/
theorem count_collectList (n : String) :
    ∀ l : NodeList, List.count n (collectList l) = countDollarSymList n l
  | .nil => by simp [collectList, countDollarSymList]
  | .cons h t => by
      simp only [collectList, countDollarSymList, List.count_append,
        count_collectNode n h, count_collectList n t]

end

/-- C4: counterexample to the claim as stated — translating `$a + $a`
returns the name `a` TWICE in `temporaryMetrics` (the traversal pushes one
entry per occurrence, with no deduplication), not exactly once. -/
theorem C4_duplicates_not_removed :
    mapAstToLooker (.operatorNode "+" "add" (.cons (.symbol "$a") (.cons (.symbol "$a") .nil)))
        = .ok { lookerFormula := some "$a + $a", temporaryMetrics := ["a", "a"] }
      ∧ ¬ List.count "a" ["a", "a"] = 1 := by
  constructor
  · decide
  · decide

/-- C4 (amended): for every successful translation, `temporaryMetrics`
holds each sigil-stripped name once PER OCCURRENCE of the `$`-prefixed
symbol: the multiplicity of a name equals the number of matching symbol
nodes (so a name referenced at least once does appear, but repeats are not
collapsed). -/
theorem C4_metrics_multiplicity (ast : MathNode) (n : String) (res : TranslationResult)
    (h : mapAstToLooker ast = .ok res) :
    List.count n res.temporaryMetrics = countDollarSym n ast := by
  have hres : res.temporaryMetrics = collectNode ast := by
    unfold mapAstToLooker at h
    rcases hlf : toLookerString ast with e | lf
    · rw [hlf] at h
      cases h
    · rw [hlf] at h
      cases h
      rfl
  rw [hres]
  exact count_collectNode n ast

/-- C4 witness: the amended statement evaluated on `$a + $a` and the name
`a` (multiplicity two). -/
theorem C4_metrics_multiplicity_witness :
    List.count "a"
        ({ lookerFormula := some "$a + $a", temporaryMetrics := ["a", "a"] }
          : TranslationResult).temporaryMetrics
      = countDollarSym "a"
          (.operatorNode "+" "add" (.cons (.symbol "$a") (.cons (.symbol "$a") .nil))) :=
  C4_metrics_multiplicity
    (.operatorNode "+" "add" (.cons (.symbol "$a") (.cons (.symbol "$a") .nil))) "a"
    { lookerFormula := some "$a + $a", temporaryMetrics := ["a", "a"] } (by decide)

/-! ## C6: response classification -/

/-- Deleting a key makes its lookup `undefined`. -/
theorem jsObjGet_delete_self {κ α : Type} [DecidableEq κ] (o : List (κ × α)) (k : κ) :
    jsObjGet (jsObjDelete o k) k = none := by
  unfold jsObjGet jsObjDelete
  have hnone : (o.filter fun p => decide (¬ p.1 = k)).find? (fun p => decide (p.1 = k)) = none := by
    rw [List.find?_eq_none]
    intro x hx
    rw [List.mem_filter] at hx
    simpa using hx.2
  simp [hnone]

/-- C6: confirmed — per-response classification by status code. With the
request pending at index `idx`: a 420/502/503/504 only bumps the failure
counter (nothing written, the request stays pending and will be refetched);
any other code outside `[200, 400)` writes the synthesized
`{ result: 'error', message }` entry whose message carries at most the
first 100 characters of the body, and deletes the request from the pending
map (it is never fetched again); a code in `[200, 400)` stores the decoded
body at `idx` (even when that payload itself is an API error). -/
theorem C6_status_classification (parseBody : String → Except String ApiResponse)
    (st : RoundState) (u : String) (r : HttpResponse) (idx : Nat)
    (hidx : jsObjGet st.pending u = some idx) :
    (((502 ≤ r.code ∧ r.code ≤ 504) ∨ r.code = 420) →
        applyOneResponse parseBody st u r
          = .ok { st with countOfFailedRequests := st.countOfFailedRequests + 1 })
      ∧ ((r.code < 200 ∨ 400 ≤ r.code) →
          ¬ ((502 ≤ r.code ∧ r.code ≤ 504) ∨ r.code = 420) →
          applyOneResponse parseBody st u r
            = .ok { pending := jsObjDelete st.pending u,
                    rc := jsObjSet st.rc idx
                      { result := some "error",
                        message := some ("Matomo server failed with code " ++ toString r.code
                          ++ ". Truncated response: " ++ truncate100 r.body) },
                    countOfFailedRequests := st.countOfFailedRequests }
            ∧ jsObjGet (jsObjDelete st.pending u) u = none)
      ∧ (200 ≤ r.code → r.code < 400 →
          ∀ p, parseBody (if r.body = "" then "\x7b\x7d" else r.body) = .ok p →
            ∃ st2, applyOneResponse parseBody st u r = .ok st2
              ∧ jsObjGet st2.rc idx = some p) := by
  refine ⟨?_, ?_, ?_⟩
  · intro hre
    have houter : r.code < 200 ∨ 400 ≤ r.code := by omega
    simp only [applyOneResponse, hidx]
    rw [if_pos houter, if_pos hre]
  · intro houter hnre
    simp only [applyOneResponse, hidx]
    rw [if_pos houter, if_neg hnre]
    exact ⟨rfl, jsObjGet_delete_self st.pending u⟩
  · intro h200 h400 p hp
    have houter : ¬ (r.code < 200 ∨ 400 ≤ r.code) := by omega
    simp only [applyOneResponse, hidx]
    rw [if_neg houter, hp]
    dsimp only
    by_cases herr : p.result = some "error" ∧ ¬ isApiErrorNonRandom (jsTemplate p.message) = true
    · refine ⟨{ pending := st.pending,
                rc := jsObjSet st.rc idx p,
                countOfFailedRequests := st.countOfFailedRequests + 1 }, ?_, ?_⟩
      · rw [if_pos herr]
      · show jsObjGet (jsObjSet st.rc idx p) idx = some p
        rw [jsObjGet_set]
        simp
    · refine ⟨{ pending := jsObjDelete st.pending u,
                rc := jsObjSet st.rc idx p,
                countOfFailedRequests := st.countOfFailedRequests }, ?_, ?_⟩
      · rw [if_neg herr]
      · show jsObjGet (jsObjSet st.rc idx p) idx = some p
        rw [jsObjGet_set]
        simp

/-- C6 witness: the classification evaluated at a concrete pending request
and a concrete 503/404/200 response triple. -/
theorem C6_status_classification_witness :
    ((((502 : Int) ≤ 503 ∧ (503 : Int) ≤ 504) ∨ (503 : Int) = 420) →
        applyOneResponse (fun _ => .ok { result := some "ok" })
            { pending := [("q", 0)], rc := [], countOfFailedRequests := 0 } "q"
            { code := 503, body := "" }
          = .ok { pending := [("q", 0)], rc := [], countOfFailedRequests := 1 })
      ∧ ((((503 : Int) < 200 ∨ (400 : Int) ≤ 503) →
          ¬ ((502 ≤ (503 : Int) ∧ (503 : Int) ≤ 504) ∨ (503 : Int) = 420) →
          applyOneResponse (fun _ => .ok { result := some "ok" })
              { pending := [("q", 0)], rc := [], countOfFailedRequests := 0 } "q"
              { code := 503, body := "" }
            = .ok { pending := jsObjDelete [("q", 0)] "q",
                    rc := jsObjSet [] 0
                      { result := some "error",
                        message := some ("Matomo server failed with code " ++ toString (503 : Int)
                          ++ ". Truncated response: " ++ truncate100 "") },
                    countOfFailedRequests := 0 }
            ∧ jsObjGet (jsObjDelete [("q", 0)] "q") "q" = none))
      ∧ ((200 : Int) ≤ 503 → (503 : Int) < 400 →
          ∀ p, (fun _ => .ok { result := some "ok" } :
              String → Except String ApiResponse) (if ("" : String) = "" then "\x7b\x7d" else "") = .ok p →
            ∃ st2, applyOneResponse (fun _ => .ok { result := some "ok" })
                { pending := [("q", 0)], rc := [], countOfFailedRequests := 0 } "q"
                { code := 503, body := "" }
              = .ok st2 ∧ jsObjGet st2.rc 0 = some p) :=
  C6_status_classification (fun _ => .ok { result := some "ok" })
    { pending := [("q", 0)], rc := [], countOfFailedRequests := 0 } "q"
    { code := 503, body := "" } 0 (by decide)

/-! ## C7: exponential backoff -/

/-- The retry loop appends a sleep trail that follows the backoff
discipline from the accumulator's current interval. -/
theorem fetchLoop_sleeps (env : FetchEnv) (options : ApiFetchOptions) (startTime : Nat) :
    ∀ (fuel k : Nat) (acc : LoopAcc),
      ∃ t, (fetchLoop env options startTime fuel k acc).sleeps = acc.sleeps ++ t
        ∧ backoffChain acc.wait t := by
  intro fuel
  induction fuel with
  | zero =>
    intro k acc
    refine ⟨[], ?_, trivial⟩
    rw [fetchLoop]
    split
    · simp
    · simp
  | succ fuel ih =>
    intro k acc
    rw [fetchLoop]
    split
    · exact ⟨[], by simp, trivial⟩
    · dsimp only
      split
      · exact ⟨[], by simp, trivial⟩
      · split
        · split
          · exact ⟨[], by simp, trivial⟩
          · split
            · exact ⟨[], by simp, trivial⟩
            · obtain ⟨t, ht, hc⟩ := ih (k + 1)
                { pending := acc.pending, rc := acc.rc,
                  wait := min (acc.wait * 2) (MAX_WAIT_BEFORE_RETRY * 1000),
                  fetched := acc.fetched ++ [jsObjKeys acc.pending],
                  sleeps := acc.sleeps ++ [acc.wait] }
              refine ⟨acc.wait :: t, ?_, rfl, hc⟩
              rw [ht]
              simp
        · split
          · exact ⟨[], by simp, trivial⟩
          · rename_i st2 heq
            split
            · obtain ⟨t, ht, hc⟩ := ih (k + 1)
                { pending := st2.pending, rc := st2.rc,
                  wait := min (acc.wait * 2) (MAX_WAIT_BEFORE_RETRY * 1000),
                  fetched := acc.fetched ++ [jsObjKeys acc.pending],
                  sleeps := acc.sleeps ++ [acc.wait] }
              refine ⟨acc.wait :: t, ?_, rfl, hc⟩
              rw [ht]
              simp
            · obtain ⟨t, ht, hc⟩ := ih (k + 1)
                { pending := st2.pending, rc := st2.rc, wait := acc.wait,
                  fetched := acc.fetched ++ [jsObjKeys acc.pending],
                  sleeps := acc.sleeps }
              exact ⟨t, by rw [ht], hc⟩

/-- Along a backoff chain whose current interval respects the cap, every
sleep respects the cap. -/
theorem backoffChain_le :
    ∀ (l : List Nat) (w : Nat), backoffChain w l → w ≤ MAX_WAIT_BEFORE_RETRY * 1000 →
      ∀ s ∈ l, s ≤ MAX_WAIT_BEFORE_RETRY * 1000 := by
  intro l
  induction l with
  | nil => intro w _ _ s hs; cases hs
  | cons a rest ih =>
    intro w hchain hw s hs
    rcases hchain with ⟨ha, hrest⟩
    rcases List.mem_cons.mp hs with h | h
    · rw [h, ha]; exact hw
    · exact ih _ hrest (Nat.min_le_right _ _) s h

/-- The head of a backoff chain is the current interval. -/
theorem backoffChain_head {w : Nat} {l : List Nat} {a : Nat}
    (hchain : backoffChain w l) (h : l.get? 0 = some a) : a = w := by
  cases l with
  | nil => cases h
  | cons s rest =>
    simp only [List.get?_cons_zero, Option.some.injEq] at h
    rw [← h]
    exact hchain.1

/-- Consecutive sleeps of a backoff chain: the next sleep is the doubled
previous one, capped. -/
theorem backoffChain_consecutive :
    ∀ (l : List Nat) (w : Nat), backoffChain w l →
      ∀ (m : Nat) (a b : Nat), l.get? m = some a → l.get? (m + 1) = some b →
        b = min (a * 2) (MAX_WAIT_BEFORE_RETRY * 1000) := by
  intro l
  induction l with
  | nil => intro w _ m a b h; cases h
  | cons s rest ih =>
    intro w hchain m a b ha hb
    rcases hchain with ⟨hs, hrest⟩
    cases m with
    | zero =>
      simp only [List.get?_cons_zero, Option.some.injEq] at ha
      simp only [List.get?_cons_succ] at hb
      have := backoffChain_head hrest hb
      rw [this, ← ha, ← hs]
    | succ m =>
      simp only [List.get?_cons_succ] at ha hb
      exact ih _ hrest m a b ha hb

/-- The sleep trail of the uncached body follows the backoff discipline
from the initial 1000 ms interval. -/
theorem fetchAllUncached_backoff (env : FetchEnv) (cachePutOk : String → String → Int → Bool)
    (fuel : Nat) (requests : List MatomoRequestParams) (options : ApiFetchOptions) :
    backoffChain 1000 (fetchAllUncached env cachePutOk fuel requests options).sleeps := by
  have hloop := fetchLoop_sleeps env options (env.nowAt 0) fuel 0
      { pending := jsFromEntries
          ((List.map (fun p => (p.2, p.1))
            (List.map (buildQuery env.sourceIdentifier) requests).enum)),
        rc := [], wait := 1000, fetched := [], sleeps := [] }
  obtain ⟨t, ht, hc⟩ := hloop
  simp only [List.nil_append] at ht
  dsimp only [fetchAllUncached]
  repeat' split
  all_goals try trivial
  all_goals simp only [ht]
  all_goals exact hc

/-- C7: confirmed — in every `fetchAll` run the backoff sleeps follow the
discipline: the first sleep is 1000 ms, each next sleep is
`min(2 * previous, MAX_WAIT_BEFORE_RETRY * 1000)` (so the interval strictly
doubles while below the 32-second cap), and no sleep ever exceeds the cap. -/
theorem C7_backoff_discipline (env : FetchEnv) (cachePutOk : String → String → Int → Bool)
    (fuel : Nat) (requests : List MatomoRequestParams) (options : ApiFetchOptions) :
    backoffChain 1000 (fetchAll env cachePutOk fuel requests options).sleeps
      ∧ (∀ s ∈ (fetchAll env cachePutOk fuel requests options).sleeps,
          s ≤ MAX_WAIT_BEFORE_RETRY * 1000)
      ∧ (∀ (m a b : Nat),
          (fetchAll env cachePutOk fuel requests options).sleeps.get? m = some a →
          (fetchAll env cachePutOk fuel requests options).sleeps.get? (m + 1) = some b →
          b = min (a * 2) (MAX_WAIT_BEFORE_RETRY * 1000)
            ∧ (a * 2 ≤ MAX_WAIT_BEFORE_RETRY * 1000 → b = a * 2)) := by
  have hchain : backoffChain 1000 (fetchAll env cachePutOk fuel requests options).sleeps := by
    unfold fetchAll
    split
    · trivial
    · exact fetchAllUncached_backoff env cachePutOk fuel requests options
  refine ⟨hchain, ?_, ?_⟩
  · exact backoffChain_le _ 1000 hchain (by decide)
  · intro m a b ha hb
    have hmin := backoffChain_consecutive _ 1000 hchain m a b ha hb
    exact ⟨hmin, fun hle => by rw [hmin]; exact Nat.min_eq_left hle⟩

/-! ## C10: a zero retry ceiling admits no round -/

/-- When the `decodeURIComponent` collaborator never throws,
`extractBasicAuthFromUrl` never does either. -/
theorem extractBasicAuth_isOk (uriDecode : String → Option String)
    (base64Encode : String → String) (url : String) (h : ∀ s, ¬ uriDecode s = none) :
    ∃ r, extractBasicAuthFromUrl uriDecode base64Encode url = .ok r := by
  unfold extractBasicAuthFromUrl
  rcases hm : matchBasicAuth url with _ | ⟨protocol, username, password, rest⟩
  · exact ⟨_, rfl⟩
  · dsimp only
    by_cases hu : ¬ username = ""
    · rw [if_pos hu]
      rcases h1 : uriDecode username with _ | u
      · exact absurd h1 (h username)
      · rcases h2 : uriDecode (password.getD "") with _ | pw
        · exact absurd h2 (h _)
        · exact ⟨_, rfl⟩
    · rw [if_neg hu]
      exact ⟨_, rfl⟩

/-- C10: confirmed — with `API_REQUEST_RETRY_LIMIT_IN_SECS = 0` (its value
when the environment variable is absent or unparsable), a monotone clock
and no usable cache hit, `fetchAll` never enters a round: it issues zero
outbound batches, performs zero sleeps, and returns the empty array (no
position resolved), for every request list and every option value (given a
configured base URL, without which the call throws before the loop
either way). -/
theorem C10_zero_retry_limit (env : FetchEnv) (cachePutOk : String → String → Int → Bool)
    (fuel : Nat) (requests : List MatomoRequestParams) (options : ApiFetchOptions)
    (hlim : env.apiRequestRetryLimitInSecs = 0)
    (hmono : env.nowAt 0 ≤ env.nowAt 1)
    (hcache : cacheLookup env options = none)
    (hurl : jsTruthyStr (jsOrStr options.instanceUrl (env.properties "dscc.username")) = true)
    (hdec : ∀ s, ¬ env.uriDecode s = none) :
    (fetchAll env cachePutOk fuel requests options).result = .ok []
      ∧ (fetchAll env cachePutOk fuel requests options).fetchedRounds = []
      ∧ (fetchAll env cachePutOk fuel requests options).sleeps = [] := by
  have hloop : ∀ acc : LoopAcc, fetchLoop env options (env.nowAt 0) fuel 0 acc
      = { rc := acc.rc, fetched := acc.fetched, sleeps := acc.sleeps,
          fatal := none, ranOut := false } := by
    intro acc
    rw [fetchLoop.eq_def]
    dsimp only
    rw [if_pos]
    exact Or.inr (by rw [hlim]; simp only [Nat.zero_add]; omega)
  unfold fetchAll
  rw [hcache]
  dsimp only [fetchAllUncached]
  rw [if_neg (by rw [hurl]; simp)]
  obtain ⟨r, hr⟩ := extractBasicAuth_isOk env.uriDecode env.base64Encode
    (stripTrailingIndexPhp (jsTemplate (jsOrStr options.instanceUrl (env.properties "dscc.username")))
      ++ "/index.php?") hdec
  rw [hr]
  dsimp only
  rw [hloop _]
  dsimp only
  have hfin : finalizeError options.throwOnFailedRequest requests [] = none := by
    cases options.throwOnFailedRequest <;> simp [finalizeError, errorEntries, rcLen]
  rw [hfin]
  dsimp only
  split <;> simp [rcToList, rcLen]

/-- C10 witness: a concrete environment with the zero retry ceiling — one
request, no cache, no batch issued, the empty array returned. -/
theorem C10_zero_retry_limit_witness :
    (fetchAll {} (fun _ _ _ => true) 3 [{ method := "a" }]
        { instanceUrl := some ("https://example.com") }).result = .ok []
      ∧ (fetchAll {} (fun _ _ _ => true) 3 [{ method := "a" }]
          { instanceUrl := some ("https://example.com") }).fetchedRounds = []
      ∧ (fetchAll {} (fun _ _ _ => true) 3 [{ method := "a" }]
          { instanceUrl := some ("https://example.com") }).sleeps = [] :=
  C10_zero_retry_limit {} (fun _ _ _ => true) 3 [{ method := "a" }]
    { instanceUrl := some ("https://example.com") }
    rfl (Nat.le_refl _) (by decide) (by decide) (fun s h => Option.noConfusion h)

/-! ## C8: the aggregate cache -/

/-- The final value of the call does not depend on whether the cache write
succeeds (`cache.put` failures are caught and only logged). -/
theorem fetchAllUncached_result_putOk (env : FetchEnv)
    (put put2 : String → String → Int → Bool) (fuel : Nat)
    (requests : List MatomoRequestParams) (options : ApiFetchOptions) :
    (fetchAllUncached env put fuel requests options).result
      = (fetchAllUncached env put2 fuel requests options).result := by
  dsimp only [fetchAllUncached]
  repeat' split
  all_goals rfl

/-- C8: confirmed — with a cache key and positive TTL: a decodable cache
entry short-circuits the call (the decoded array is returned, zero batches
issued, zero sleeps); an entry that fails to decode degrades to a miss
(the call proceeds exactly as the uncached body); and the call's value
never depends on whether the final cache write succeeds. -/
theorem C8_cache_behavior (env : FetchEnv) (put put2 : String → String → Int → Bool)
    (fuel : Nat) (requests : List MatomoRequestParams) (options : ApiFetchOptions)
    (key entry : String)
    (hkey : options.cacheKey = some key) (hne : ¬ key = "")
    (httl : jsNumGtZero options.cacheTtl = true) :
    (∀ arr, env.cacheGet key = some entry → env.decodeCachedArray entry = some arr →
        fetchAll env put fuel requests options = { result := .ok arr })
      ∧ (env.cacheGet key = some entry → env.decodeCachedArray entry = none →
          fetchAll env put fuel requests options = fetchAllUncached env put fuel requests options)
      ∧ (fetchAll env put fuel requests options).result
          = (fetchAll env put2 fuel requests options).result := by
  have hcond : jsTruthyStr options.cacheKey = true ∧ jsNumGtZero options.cacheTtl = true := by
    refine ⟨?_, httl⟩
    rw [hkey]
    simpa [jsTruthyStr] using hne
  have hcl : ∀ h : env.cacheGet key = some entry,
      cacheLookup env options = env.decodeCachedArray entry := by
    intro hget
    unfold cacheLookup
    rw [if_pos hcond, hkey]
    show (match env.cacheGet key with
          | some e => env.decodeCachedArray e
          | none => none) = env.decodeCachedArray entry
    rw [hget]
  refine ⟨?_, ?_, ?_⟩
  · intro arr h1 h2
    unfold fetchAll
    rw [hcl h1, h2]
  · intro h1 h2
    unfold fetchAll
    rw [hcl h1, h2]
  · unfold fetchAll
    rcases hc : cacheLookup env options with _ | arr
    · exact fetchAllUncached_result_putOk env put put2 fuel requests options
    · rfl

/-- C8 witness: a concrete cache holding a decodable entry under key `k`. -/
theorem C8_cache_behavior_witness :
    (∀ arr, cacheProbeEnv.cacheGet "k" = some ("E") →
        cacheProbeEnv.decodeCachedArray "E" = some arr →
        fetchAll cacheProbeEnv (fun _ _ _ => true) 2 []
            { cacheKey := some ("k"), cacheTtl := some 60 }
          = { result := .ok arr })
      ∧ (cacheProbeEnv.cacheGet "k" = some ("E") →
          cacheProbeEnv.decodeCachedArray "E" = none →
          fetchAll cacheProbeEnv (fun _ _ _ => true) 2 []
              { cacheKey := some ("k"), cacheTtl := some 60 }
            = fetchAllUncached cacheProbeEnv (fun _ _ _ => true) 2 []
                { cacheKey := some ("k"), cacheTtl := some 60 })
      ∧ (fetchAll cacheProbeEnv (fun _ _ _ => true) 2 []
            { cacheKey := some ("k"), cacheTtl := some 60 }).result
          = (fetchAll cacheProbeEnv (fun _ _ _ => false) 2 []
              { cacheKey := some ("k"), cacheTtl := some 60 }).result :=
  C8_cache_behavior cacheProbeEnv (fun _ _ _ => true) (fun _ _ _ => false) 2 []
    { cacheKey := some ("k"), cacheTtl := some 60 } "k" "E"
    rfl (by decide) (by decide)

/-! ## C3: finalization -/

/-- C3: counterexample to the claim as stated — with
`throwOnFailedRequest` set, a zero retry ceiling and one request, the call
ends with position 0 unresolved (a hole, not an error entry), and no fatal
error is raised: the sparse-array `filter` skips holes, so an unresolved
entry alone never triggers the throw the claim requires. -/
theorem C3_unresolved_does_not_throw :
    fetchAll {} (fun _ _ _ => true) 2 [{ method := "a" }]
        { instanceUrl := some ("https://example.com"), throwOnFailedRequest := true }
      = { result := .ok [], fetchedRounds := [], sleeps := [], cachePuts := [], ranOut := false }
      ∧ (([] : List (Option ApiResponse)).get? 0).getD none = none := by
  constructor
  · decide
  · decide

/-- C3 (amended): the finalization raises a fatal error iff
`throwOnFailedRequest` is set and at least one final entry is an ERROR
entry (`result === 'error'`); entries left unresolved (holes) do not
trigger it. With exactly one error entry the message names the failing
request's method, JSON-serialized params and message; with more than one
it names only the count. -/
theorem C3_finalize_iff (flag : Bool) (requests : List MatomoRequestParams)
    (rc : List (Nat × ApiResponse)) :
    (¬ finalizeError flag requests rc = none ↔ flag = true ∧ ¬ errorEntries rc = [])
      ∧ (∀ i p req, errorEntries rc = [(i, p)] → requests.get? i = some req →
          finalizeError true requests rc
            = some ("API method " ++ req.method ++ " failed (params = "
                ++ jsonStringifyParams req.params ++ "): \"" ++ jsTemplate p.message ++ "\"."))
      ∧ (1 < (errorEntries rc).length →
          finalizeError true requests rc
            = some (toString (errorEntries rc).length ++ " API methods failed.")) := by
  refine ⟨?_, ?_, ?_⟩
  · cases flag with
    | false => simp [finalizeError]
    | true =>
      simp only [finalizeError, if_pos]
      rcases he : errorEntries rc with _ | ⟨e, tail⟩
      · simp
      · cases tail with
        | nil =>
          rcases hr : requests[e.1]? with _ | req
          · simp [hr]
          · simp [hr]
        | cons e2 t2 => simp
  · intro i p req he hr
    unfold finalizeError
    rw [if_pos rfl, he]
    show (match requests.get? (i, p).1 with
          | none => some "TypeError: Cannot destructure property method of undefined"
          | some req => some ("API method " ++ req.method ++ " failed (params = "
              ++ jsonStringifyParams req.params ++ "): \"" ++ jsTemplate (i, p).2.message ++ "\".")) = _
    rw [hr]
  · intro hlen
    unfold finalizeError
    rw [if_pos rfl]
    rcases he : errorEntries rc with _ | ⟨e, _ | ⟨e2, t2⟩⟩
    · rw [he] at hlen
      simp at hlen
    · rw [he] at hlen
      simp at hlen
    · rfl

/-! ## C2: deduplication by canonical query string -/

/-- Every entry of `Object.fromEntries(urls.map((url, i) => [url, i]))`
maps a url to the index of its LAST occurrence: the stored index points at
the url, and no later position holds the same url. -/
theorem fromEntries_enum_last (U : List String) :
    ∀ (k : String) (v : Nat),
      (k, v) ∈ jsFromEntries (U.enum.map (fun p => (p.2, p.1))) →
      U.get? v = some k ∧ ∀ m, v < m → ¬ U.get? m = some k := by
  suffices hgo : ∀ (rest : List String) (n : Nat) (acc : List (String × Nat)),
      (∀ p ∈ acc, p.2 < n ∧ U.get? p.2 = some p.1
        ∧ ∀ m, p.2 < m → m < n → ¬ U.get? m = some p.1) →
      (∀ t, t < rest.length → U.get? (n + t) = rest.get? t) →
      ∀ p ∈ ((List.enumFrom n rest).map (fun p => (p.2, p.1))).foldl
          (fun acc q => jsObjSet acc q.1 q.2) acc,
        p.2 < n + rest.length ∧ U.get? p.2 = some p.1
          ∧ ∀ m, p.2 < m → m < n + rest.length → ¬ U.get? m = some p.1 by
    intro k v hkv
    rw [jsFromEntries, List.enum_eq_enumFrom] at hkv
    have halign : ∀ t, t < U.length → U.get? (0 + t) = U.get? t := by
      intro t _
      rw [Nat.zero_add]
    have h := hgo U 0 [] (by intro p hp; cases hp) halign (k, v) hkv
    refine ⟨h.2.1, fun m hm => ?_⟩
    by_cases hlt : m < U.length
    · exact h.2.2 m hm (by simpa using hlt)
    · intro hc
      rw [List.get?_eq_none.mpr (Nat.le_of_not_lt hlt)] at hc
      cases hc
  intro rest
  induction rest with
  | nil =>
    intro n acc hacc _ p hp
    simpa using hacc p hp
  | cons head tail ih =>
    intro n acc hacc halign p hp
    rw [List.enumFrom_cons] at hp
    simp only [List.map_cons, List.foldl_cons] at hp
    have hhead : U.get? n = some head := by
      have := halign 0 (by simp)
      simpa using this
    have hacc' : ∀ q ∈ jsObjSet acc head n, q.2 < n + 1 ∧ U.get? q.2 = some q.1
        ∧ ∀ m, q.2 < m → m < n + 1 → ¬ U.get? m = some q.1 := by
      intro q hq
      rcases mem_jsObjSet hq with hq1 | ⟨hq2, hq3⟩
      · subst hq1
        exact ⟨by omega, hhead, fun m hm1 hm2 => by omega⟩
      · obtain ⟨hlt, hget, hbet⟩ := hacc q hq2
        refine ⟨by omega, hget, ?_⟩
        intro m hm1 hm2 hc
        by_cases hmn : m < n
        · exact hbet m hm1 hmn hc
        · have hmn2 : m = n := by omega
          rw [hmn2, hhead] at hc
          have : head = q.1 := by
            injection hc
          exact hq3 (by rw [← this])
    have halign' : ∀ t, t < tail.length → U.get? (n + 1 + t) = tail.get? t := by
      intro t ht
      have := halign (t + 1) (by simp; omega)
      rw [show n + (t + 1) = n + 1 + t by omega] at this
      simpa using this
    have h := ih (n + 1) (jsObjSet acc head n) hacc' halign' p hp
    obtain ⟨h1, h2, h3⟩ := h
    refine ⟨by simp; omega, h2, ?_⟩
    intro m hm1 hm2
    exact h3 m hm1 (by simp at hm2; omega)

/-- One classification step never adds pending requests (it either keeps
the pending map or deletes one key). -/
theorem applyOneResponse_pending_sublist (pb : String → Except String ApiResponse)
    (st : RoundState) (u : String) (r : HttpResponse) (st2 : RoundState)
    (h : applyOneResponse pb st u r = .ok st2) : st2.pending.Sublist st.pending := by
  unfold applyOneResponse at h
  rcases hidx : jsObjGet st.pending u with _ | idx <;> rw [hidx] at h <;> dsimp only at h
  · cases h
    exact List.Sublist.refl _
  · by_cases h1 : r.code < 200 ∨ 400 ≤ r.code
    · rw [if_pos h1] at h
      by_cases h2 : (502 ≤ r.code ∧ r.code ≤ 504) ∨ r.code = 420
      · rw [if_pos h2] at h
        cases h
        exact List.Sublist.refl _
      · rw [if_neg h2] at h
        cases h
        exact jsObjDelete_sublist st.pending u
    · rw [if_neg h1] at h
      rcases hp : pb (if r.body = "" then "\x7b\x7d" else r.body) with e | payload <;>
        rw [hp] at h <;> dsimp only at h
      · cases h
      · by_cases h3 : payload.result = some "error"
            ∧ ¬ isApiErrorNonRandom (jsTemplate payload.message) = true
        · rw [if_pos h3] at h
          cases h
          exact List.Sublist.refl _
        · rw [if_neg h3] at h
          cases h
          exact jsObjDelete_sublist st.pending u

/-- One classification step writes only at an index that is a value of the
current pending map. -/
theorem applyOneResponse_rc (pb : String → Except String ApiResponse)
    (st : RoundState) (u : String) (r : HttpResponse) (st2 : RoundState) (idx : Nat)
    (h : applyOneResponse pb st u r = .ok st2)
    (hw : ¬ jsObjGet st2.rc idx = none) :
    ¬ jsObjGet st.rc idx = none ∨ idx ∈ st.pending.map (fun p => p.2) := by
  unfold applyOneResponse at h
  rcases hidx : jsObjGet st.pending u with _ | respIdx <;> rw [hidx] at h <;> dsimp only at h
  · cases h
    exact Or.inl hw
  · have hmem : respIdx ∈ st.pending.map (fun p => p.2) := jsObjGet_mem_values hidx
    have hset : ∀ payload : ApiResponse,
        ¬ jsObjGet (jsObjSet st.rc respIdx payload) idx = none →
        ¬ jsObjGet st.rc idx = none ∨ idx ∈ st.pending.map (fun p => p.2) := by
      intro payload hw2
      rw [jsObjGet_set] at hw2
      by_cases he : idx = respIdx
      · exact Or.inr (he ▸ hmem)
      · rw [if_neg he] at hw2
        exact Or.inl hw2
    by_cases h1 : r.code < 200 ∨ 400 ≤ r.code
    · rw [if_pos h1] at h
      by_cases h2 : (502 ≤ r.code ∧ r.code ≤ 504) ∨ r.code = 420
      · rw [if_pos h2] at h
        cases h
        exact Or.inl hw
      · rw [if_neg h2] at h
        cases h
        exact hset _ hw
    · rw [if_neg h1] at h
      rcases hp : pb (if r.body = "" then "\x7b\x7d" else r.body) with e | payload <;>
        rw [hp] at h <;> dsimp only at h
      · cases h
      · by_cases h3 : payload.result = some "error"
            ∧ ¬ isApiErrorNonRandom (jsTemplate payload.message) = true
        · rw [if_pos h3] at h
          cases h
          exact hset _ hw
        · rw [if_neg h3] at h
          cases h
          exact hset _ hw

/-- `applyResponses` never adds pending requests. -/
theorem applyResponses_pending_sublist (pb : String → Except String ApiResponse)
    (urls : List String) :
    ∀ (l : List (Nat × HttpResponse)) (st st2 : RoundState),
      applyResponses pb urls st l = .ok st2 → st2.pending.Sublist st.pending := by
  intro l
  induction l with
  | nil =>
    intro st st2 h
    cases h
    exact List.Sublist.refl _
  | cons hd tl ih =>
    intro st st2 h
    rw [applyResponses] at h
    rcases hu : urls.get? hd.1 with _ | u <;> rw [hu] at h <;> dsimp only at h
    · cases h
    · rcases ha : applyOneResponse pb st u hd.2 with e | stMid <;> rw [ha] at h <;>
        dsimp only at h
      · cases h
      · exact (ih stMid st2 h).trans (applyOneResponse_pending_sublist pb st u hd.2 stMid ha)

/-- `applyResponses` writes only at indices that are values of the current
pending map. -/
theorem applyResponses_rc (pb : String → Except String ApiResponse) (urls : List String) :
    ∀ (l : List (Nat × HttpResponse)) (st st2 : RoundState) (idx : Nat),
      applyResponses pb urls st l = .ok st2 →
      ¬ jsObjGet st2.rc idx = none →
      ¬ jsObjGet st.rc idx = none ∨ idx ∈ st.pending.map (fun p => p.2) := by
  intro l
  induction l with
  | nil =>
    intro st st2 idx h hw
    cases h
    exact Or.inl hw
  | cons hd tl ih =>
    intro st st2 idx h hw
    rw [applyResponses] at h
    rcases hu : urls.get? hd.1 with _ | u <;> rw [hu] at h <;> dsimp only at h
    · cases h
    · rcases ha : applyOneResponse pb st u hd.2 with e | stMid <;> rw [ha] at h <;>
        dsimp only at h
      · cases h
      · rcases ih stMid st2 idx h hw with hmid | hmid
        · exact applyOneResponse_rc pb st u hd.2 stMid idx ha hmid
        · refine Or.inr ?_
          have hsub := applyOneResponse_pending_sublist pb st u hd.2 stMid ha
          exact (hsub.map (fun p => p.2)).subset hmid

/-- Across all rounds, the response array is written only at indices that
were values of the pending map at loop entry. -/
theorem fetchLoop_rc_writes (env : FetchEnv) (options : ApiFetchOptions) (startTime : Nat) :
    ∀ (fuel k : Nat) (acc : LoopAcc) (idx : Nat),
      ¬ jsObjGet (fetchLoop env options startTime fuel k acc).rc idx = none →
      ¬ jsObjGet acc.rc idx = none ∨ idx ∈ acc.pending.map (fun p => p.2) := by
  intro fuel
  induction fuel with
  | zero =>
    intro k acc idx hw
    rw [fetchLoop] at hw
    split at hw
    · exact Or.inl hw
    · exact Or.inl hw
  | succ fuel ih =>
    intro k acc idx hw
    rw [fetchLoop] at hw
    split at hw
    · exact Or.inl hw
    · dsimp only at hw
      split at hw
      · exact Or.inl hw
      · split at hw
        · split at hw
          · exact Or.inl hw
          · split at hw
            · exact Or.inl hw
            · exact ih (k + 1)
                { pending := acc.pending, rc := acc.rc,
                  wait := min (acc.wait * 2) (MAX_WAIT_BEFORE_RETRY * 1000),
                  fetched := acc.fetched ++ [jsObjKeys acc.pending],
                  sleeps := acc.sleeps ++ [acc.wait] } idx hw
        · split at hw
          · exact Or.inl hw
          · rename_i st2 heq
            split at hw
            · rcases ih (k + 1) _ idx hw with hmid | hmid
              · rcases applyResponses_rc env.parseBody (jsObjKeys acc.pending) _ _ st2 idx
                    heq hmid with hl | hr
                · exact Or.inl hl
                · exact Or.inr hr
              · dsimp only at hmid
                have hsub := applyResponses_pending_sublist env.parseBody
                  (jsObjKeys acc.pending) _ _ st2 heq
                exact Or.inr ((hsub.map (fun p => p.2)).subset hmid)
            · rcases ih (k + 1) _ idx hw with hmid | hmid
              · rcases applyResponses_rc env.parseBody (jsObjKeys acc.pending) _ _ st2 idx
                    heq hmid with hl | hr
                · exact Or.inl hl
                · exact Or.inr hr
              · dsimp only at hmid
                have hsub := applyResponses_pending_sublist env.parseBody
                  (jsObjKeys acc.pending) _ _ st2 heq
                exact Or.inr ((hsub.map (fun p => p.2)).subset hmid)

/-- Every batch the loop issues is duplicate-free (the keys of a pending
map with duplicate-free keys, which deletion preserves). -/
theorem fetchLoop_fetched_nodup (env : FetchEnv) (options : ApiFetchOptions) (startTime : Nat) :
    ∀ (fuel k : Nat) (acc : LoopAcc),
      (jsObjKeys acc.pending).Nodup → (∀ l ∈ acc.fetched, l.Nodup) →
      ∀ l ∈ (fetchLoop env options startTime fuel k acc).fetched, l.Nodup := by
  intro fuel
  induction fuel with
  | zero =>
    intro k acc hkeys hfetched l hl
    rw [fetchLoop] at hl
    split at hl
    · exact hfetched l hl
    · exact hfetched l hl
  | succ fuel ih =>
    intro k acc hkeys hfetched l hl
    have hext : ∀ m ∈ acc.fetched ++ [jsObjKeys acc.pending], m.Nodup := by
      intro m hm
      rcases List.mem_append.mp hm with h | h
      · exact hfetched m h
      · rw [List.mem_singleton] at h
        exact h ▸ hkeys
    rw [fetchLoop] at hl
    split at hl
    · exact hfetched l hl
    · dsimp only at hl
      split at hl
      · exact hfetched l hl
      · split at hl
        · split at hl
          · exact hext l hl
          · split at hl
            · exact hext l hl
            · exact ih (k + 1)
                { pending := acc.pending, rc := acc.rc,
                  wait := min (acc.wait * 2) (MAX_WAIT_BEFORE_RETRY * 1000),
                  fetched := acc.fetched ++ [jsObjKeys acc.pending],
                  sleeps := acc.sleeps ++ [acc.wait] } hkeys hext l hl
        · split at hl
          · exact hext l hl
          · rename_i st2 heq
            have hkeys2 : (jsObjKeys st2.pending).Nodup := by
              have hsub := applyResponses_pending_sublist env.parseBody
                (jsObjKeys acc.pending) _ _ st2 heq
              have hmap : (st2.pending.map (fun p => p.1)).Sublist
                  (acc.pending.map (fun p => p.1)) := hsub.map _
              exact List.Nodup.sublist hmap hkeys
            split at hl
            · exact ih (k + 1) _ hkeys2 hext l hl
            · exact ih (k + 1) _ hkeys2 hext l hl

/-- Any index written in the sparse array is below its JS length. -/
theorem rcLen_lt_of_mem (rc : List (Nat × ApiResponse)) :
    ∀ p ∈ rc, p.1 + 1 ≤ rcLen rc := by
  have haux : ∀ (l : List (Nat × ApiResponse)) (init : Nat),
      init ≤ l.foldl (fun m q => max m (q.1 + 1)) init := by
    intro l
    induction l with
    | nil => intro init; exact Nat.le_refl _
    | cons hd tl ih =>
      intro init
      exact (Nat.le_max_left init (hd.1 + 1)).trans (ih _)
  have hmain : ∀ (l : List (Nat × ApiResponse)) (init : Nat) (p : Nat × ApiResponse),
      p ∈ l → p.1 + 1 ≤ l.foldl (fun m q => max m (q.1 + 1)) init := by
    intro l
    induction l with
    | nil => intro init p hp; cases hp
    | cons hd tl ih =>
      intro init p hp
      rcases List.mem_cons.mp hp with h | h
      · subst h
        exact (Nat.le_max_right init (p.1 + 1)).trans (haux tl _)
      · exact ih _ p h
  intro p hp
  exact hmain rc 0 p hp

/-- Past the JS length the array reads `undefined`. -/
theorem jsObjGet_none_of_rcLen_le (rc : List (Nat × ApiResponse)) (i : Nat)
    (h : rcLen rc ≤ i) : jsObjGet rc i = none := by
  rcases hf : jsObjGet rc i with _ | v
  · rfl
  · unfold jsObjGet at hf
    rcases hfind : rc.find? (fun p => decide (p.1 = i)) with _ | p
    · rw [hfind] at hf
      cases hf
    · have hp1 : p.1 = i := by simpa using List.find?_some hfind
      have := rcLen_lt_of_mem rc p (List.mem_of_find?_eq_some hfind)
      omega

/-- Reading the final response array at any position is reading the sparse
write map: absent positions (holes or out of range) are `undefined`. -/
theorem rcToList_get (rc : List (Nat × ApiResponse)) (i : Nat) :
    ((rcToList rc).get? i).getD none = jsObjGet rc i := by
  unfold rcToList
  by_cases hi : i < rcLen rc
  · rw [List.get?_map, List.get?_range hi]
    rfl
  · have h1 : ((List.range (rcLen rc)).map (fun j => jsObjGet rc j)).get? i = none := by
      rw [List.get?_eq_none]
      simpa using Nat.le_of_not_lt hi
    rw [h1, jsObjGet_none_of_rcLen_le rc i (Nat.le_of_not_lt hi)]
    rfl

/-- The shape of the uncached body: its batches are those of the retry
loop started on the deduplicated map (or none when the call dies before
the loop), and a non-fatal value is exactly the loop's sparse array. -/
theorem fetchAllUncached_spec (env : FetchEnv) (put : String → String → Int → Bool)
    (fuel : Nat) (requests : List MatomoRequestParams) (options : ApiFetchOptions) :
    ((fetchAllUncached env put fuel requests options).fetchedRounds = []
      ∨ (fetchAllUncached env put fuel requests options).fetchedRounds
          = (fetchLoop env options (env.nowAt 0) fuel 0
              { pending := jsFromEntries
                  (((requests.map (buildQuery env.sourceIdentifier)).enum).map
                    (fun p => (p.2, p.1))),
                rc := [], wait := 1000, fetched := [], sleeps := [] }).fetched)
    ∧ (∀ arr, (fetchAllUncached env put fuel requests options).result = .ok arr →
        arr = rcToList (fetchLoop env options (env.nowAt 0) fuel 0
          { pending := jsFromEntries
              (((requests.map (buildQuery env.sourceIdentifier)).enum).map
                (fun p => (p.2, p.1))),
            rc := [], wait := 1000, fetched := [], sleeps := [] }).rc) := by
  constructor
  · dsimp only [fetchAllUncached]
    repeat' split
    all_goals simp
  · intro arr hres
    dsimp only [fetchAllUncached] at hres
    repeat' split at hres
    all_goals simp at hres
    all_goals exact hres.symm

/-- C2: counterexample to the claim as stated — two identical requests
(`method: 'a'`, no params) map to ONE canonical query and one outbound
fetch, but the resolved payload appears only at position 1 (the LAST
duplicate position, the one `Object.fromEntries` kept); position 0 stays
an unresolved hole, so the two positions do NOT hold identical resolved
payloads. -/
theorem C2_duplicate_not_fanned_out :
    fetchAll dupProbeEnv (fun _ _ _ => true) 4 [{ method := "a" }, { method := "a" }]
        { instanceUrl := some ("https://example.com") }
      = { result := .ok [none, some {}],
          fetchedRounds := [["module=API&method=a&format=JSON&s=1"]],
          sleeps := [], cachePuts := [], ranOut := false }
      ∧ ¬ (none : Option ApiResponse) = some ({} : ApiResponse) := by
  constructor
  · decide
  · decide

/-- C2 (amended): absent a cache hit, duplicate requests still collapse to
one canonical query per round — every batch the call issues is
duplicate-free — but the result is NOT fanned back out: a position `i`
whose canonical query also occurs at a later position `j` is never
written, so the returned array is unresolved (`undefined`) at `i` (only
the last duplicate position can receive the payload). -/
theorem C2_one_fetch_last_position_only (env : FetchEnv)
    (put : String → String → Int → Bool) (fuel : Nat)
    (requests : List MatomoRequestParams) (options : ApiFetchOptions)
    (i j : Nat) (u : String) (arr : List (Option ApiResponse))
    (hcache : cacheLookup env options = none)
    (hij : i < j)
    (hi : (requests.map (buildQuery env.sourceIdentifier)).get? i = some u)
    (hj : (requests.map (buildQuery env.sourceIdentifier)).get? j = some u)
    (hres : (fetchAll env put fuel requests options).result = .ok arr) :
    (∀ l ∈ (fetchAll env put fuel requests options).fetchedRounds, l.Nodup)
      ∧ (arr.get? i).getD none = none := by
  have hfa : fetchAll env put fuel requests options
      = fetchAllUncached env put fuel requests options := by
    unfold fetchAll
    rw [hcache]
  rw [hfa] at hres ⊢
  obtain ⟨hfr, hok⟩ := fetchAllUncached_spec env put fuel requests options
  have harr := hok arr hres
  constructor
  · intro l hl
    rcases hfr with h | h
    · rw [h] at hl
      cases hl
    · rw [h] at hl
      refine fetchLoop_fetched_nodup env options (env.nowAt 0) fuel 0 _ ?_ ?_ l hl
      · exact jsFromEntries_keys_nodup _
      · intro m hm
        cases hm
  · rw [harr, rcToList_get]
    rcases hw : jsObjGet (fetchLoop env options (env.nowAt 0) fuel 0
        { pending := jsFromEntries
            (((requests.map (buildQuery env.sourceIdentifier)).enum).map (fun p => (p.2, p.1))),
          rc := [], wait := 1000, fetched := [], sleeps := [] }).rc i with _ | v
    · rfl
    · exfalso
      have hne : ¬ jsObjGet (fetchLoop env options (env.nowAt 0) fuel 0
          { pending := jsFromEntries
              (((requests.map (buildQuery env.sourceIdentifier)).enum).map (fun p => (p.2, p.1))),
            rc := [], wait := 1000, fetched := [], sleeps := [] }).rc i = none := by
        rw [hw]
        simp
      rcases fetchLoop_rc_writes env options (env.nowAt 0) fuel 0 _ i hne with hl | hr
      · exact hl rfl
      · obtain ⟨pq, hpqM, hpq2⟩ := List.mem_map.mp hr
        obtain ⟨hg, hafter⟩ := fromEntries_enum_last
          (requests.map (buildQuery env.sourceIdentifier)) pq.1 pq.2 hpqM
        rw [hpq2] at hg hafter
        rw [hg] at hi
        injection hi with huu
        rw [huu] at hafter
        exact hafter j hij hj

/-- C2 witness: the amended statement evaluated on two identical concrete
requests — one duplicate-free batch, position 0 unresolved. -/
theorem C2_one_fetch_last_position_only_witness :
    (∀ l ∈ (fetchAll dupProbeEnv (fun _ _ _ => true) 4
        [{ method := "a" }, { method := "a" }]
        { instanceUrl := some ("https://example.com") }).fetchedRounds, l.Nodup)
      ∧ ((([none, some ({} : ApiResponse)] : List (Option ApiResponse)).get? 0).getD none
          = none) :=
  C2_one_fetch_last_position_only dupProbeEnv (fun _ _ _ => true) 4
    [{ method := "a" }, { method := "a" }] { instanceUrl := some ("https://example.com") }
    0 1 "module=API&method=a&format=JSON&s=1" [none, some {}]
    (by decide) (by decide) (by decide) (by decide) (by decide)
